import Mathlib

/-!
Verification of the partition-reconciliation and query-translation layer of the
Loom metamodel adapter (`src/metamodels/loom_metamodel.py`).

The SQL tables owned by the adapter are embedded as lists of typed rows inside
a `LoomStore`; Python dictionaries (the per-connection server cache, value
dictionaries built for requests) are embedded as association lists on which
assignment, membership and deletion follow Python dict semantics (unique keys,
insertion order).  SQL point lookups via `util.cursor_value` (which raises on
an empty cursor) are embedded as `Option`-valued lookups, and Python functions
that can raise are embedded with `Except` results.  External collaborators
(the loom engine's predict/query servers, Python's `float` parser, bayesdb
catalog lookups) are parameters of the corresponding definitions.
-/

namespace LoomVerification

/-- Row of `bayesdb_loom_generator`. -/
structure GeneratorRow where
  generator_id : Int
  name : String
  project_path : String
deriving DecidableEq

/-- Row of `bayesdb_loom_generator_model_info`. -/
structure ModelInfoRow where
  generator_id : Int
  num_models : Int
deriving DecidableEq

/-- Row of `bayesdb_loom_string_encoding`. -/
structure StringEncodingRow where
  generator_id : Int
  colno : Int
  string_form : String
  integer_form : Int
deriving DecidableEq

/-- Row of `bayesdb_loom_column_ordering`. -/
structure ColumnOrderingRow where
  generator_id : Int
  colno : Int
  rank : Int
deriving DecidableEq

/-- Row of `bayesdb_loom_column_kind_partition`. -/
structure ColumnKindRow where
  generator_id : Int
  modelno : Int
  colno : Int
  kind_id : Int
deriving DecidableEq

/-- Row of `bayesdb_loom_row_kind_partition`. -/
structure RowKindRow where
  generator_id : Int
  modelno : Int
  rowid : Int
  kind_id : Int
  partition_id : Int
deriving DecidableEq

/-- The six SQL tables of `LOOM_SCHEMA_1`, embedded as lists of rows. -/
@[ext]
structure LoomStore where
  generator_tbl : List GeneratorRow
  model_info : List ModelInfoRow
  string_encoding : List StringEncodingRow
  column_ordering : List ColumnOrderingRow
  column_kind_partition : List ColumnKindRow
  row_kind_partition : List RowKindRow
deriving DecidableEq

/-- One generator's cache entries (keys `q_server` / `preql_server`),
embedding the inner Python dict of `self._cache[bdb][generator_id]`. -/
abbrev GenCache (α : Type) := List (String × α)

/-- The per-connection cache `self._cache[bdb]`: generator id to entries. -/
abbrev Cache (α : Type) := List (Int × GenCache α)

/-- `_get_cache_entry`: returns `none` if the generator id or key is absent. -/
def get_cache_entry {α : Type} (cache : Cache α) (generator_id : Int)
    (key : String) : Option α :=
  match cache.lookup generator_id with
  | none => none
  | some entries => entries.lookup key

/-- `_del_cache_entry`: with `key = none` wipes the generator's entry wholesale,
otherwise removes the single key from the generator's entry. -/
def del_cache_entry {α : Type} (cache : Cache α) (generator_id : Int)
    (key : Option String) : Cache α :=
  match key with
  | none => cache.filter (fun p => !(p.1 == generator_id))
  | some k =>
      cache.map (fun p =>
        if p.1 == generator_id then (p.1, p.2.filter (fun q => !(q.1 == k))) else p)

/-- The two `DELETE ... WHERE generator_id = ? and modelno = ?` statements of
one loop iteration of `drop_models` (explicit `modelnos` branch). -/
def delete_model_rows (s : LoomStore) (generator_id modelno : Int) : LoomStore :=
  { s with
    column_kind_partition := s.column_kind_partition.filter
      (fun r => !(r.generator_id == generator_id && r.modelno == modelno)),
    row_kind_partition := s.row_kind_partition.filter
      (fun r => !(r.generator_id == generator_id && r.modelno == modelno)) }

/-- Store effect of `drop_models`: with `modelnos = none` delete every
column/row kind partition row of the generator, otherwise delete the rows
of each listed model number in turn. -/
def drop_models_store (s : LoomStore) (generator_id : Int)
    (modelnos : Option (List Int)) : LoomStore :=
  match modelnos with
  | none =>
      { s with
        column_kind_partition := s.column_kind_partition.filter
          (fun r => !(r.generator_id == generator_id)),
        row_kind_partition := s.row_kind_partition.filter
          (fun r => !(r.generator_id == generator_id)) }
  | some ms => ms.foldl (fun acc m => delete_model_rows acc generator_id m) s

/-- Cache effect of `drop_models`: only the `modelnos is None` branch touches
the cache (deleting the `q_server` and `preql_server` entries); the explicit
subset branch leaves the cache untouched. -/
def drop_models_cache {α : Type} (cache : Cache α) (generator_id : Int)
    (modelnos : Option (List Int)) : Cache α :=
  match modelnos with
  | none =>
      del_cache_entry (del_cache_entry cache generator_id (some "q_server"))
        generator_id (some "preql_server")
  | some _ => cache

/-- `drop_models`, combining the store and cache effects. -/
def drop_models {α : Type} (s : LoomStore) (cache : Cache α) (generator_id : Int)
    (modelnos : Option (List Int)) : LoomStore × Cache α :=
  (drop_models_store s generator_id modelnos,
   drop_models_cache cache generator_id modelnos)

/-- `drop_generator`: wipe the whole cache entry, run `drop_models` with
`modelnos = None`, then delete the generator's rows from the remaining four
tables. -/
def drop_generator {α : Type} (s : LoomStore) (cache : Cache α)
    (generator_id : Int) : LoomStore × Cache α :=
  let cache1 := del_cache_entry cache generator_id none
  let sc := drop_models s cache1 generator_id none
  ({ sc.1 with
     generator_tbl := sc.1.generator_tbl.filter
       (fun r => !(r.generator_id == generator_id)),
     model_info := sc.1.model_info.filter
       (fun r => !(r.generator_id == generator_id)),
     string_encoding := sc.1.string_encoding.filter
       (fun r => !(r.generator_id == generator_id)),
     column_ordering := sc.1.column_ordering.filter
       (fun r => !(r.generator_id == generator_id)) },
   sc.2)

/-- `_get_name`: point lookup in `bayesdb_loom_generator`; `none` embeds the
`util.cursor_value` failure on an empty cursor. -/
def get_name (s : LoomStore) (generator_id : Int) : Option String :=
  (s.generator_tbl.find? (fun r => r.generator_id == generator_id)).map
    (fun r => r.name)

/-- `_get_num_models`: point lookup in `bayesdb_loom_generator_model_info`. -/
def get_num_models (s : LoomStore) (generator_id : Int) : Option Int :=
  (s.model_info.find? (fun r => r.generator_id == generator_id)).map
    (fun r => r.num_models)

/-- `_get_kind_id`: point lookup in `bayesdb_loom_column_kind_partition`. -/
def get_kind_id (s : LoomStore) (generator_id modelno colno : Int) : Option Int :=
  (s.column_kind_partition.find? (fun r =>
    r.generator_id == generator_id && r.modelno == modelno && r.colno == colno)).map
    (fun r => r.kind_id)

/-- Concrete store used to exhibit the `drop_models` cache bug: two generators,
generator 1 with models 0 and 1. -/
def c3_store : LoomStore :=
  { generator_tbl := [⟨1, "g1", "p1"⟩, ⟨2, "g2", "p2"⟩]
    model_info := [⟨1, 2⟩, ⟨2, 1⟩]
    string_encoding := []
    column_ordering := [⟨1, 0, 0⟩, ⟨2, 0, 0⟩]
    column_kind_partition :=
      [⟨1, 0, 0, 0⟩, ⟨1, 0, 1, 0⟩, ⟨1, 1, 0, 1⟩, ⟨2, 0, 0, 0⟩]
    row_kind_partition :=
      [⟨1, 0, 1, 0, 0⟩, ⟨1, 1, 1, 1, 0⟩, ⟨2, 0, 1, 0, 0⟩] }

/-- Concrete per-connection cache holding handles (as numbers) for both
generators. -/
def c3_cache : Cache Nat :=
  [(1, [("q_server", 7), ("preql_server", 8)]), (2, [("q_server", 9)])]

/-- Resolution of the `modelnos is None` convention used throughout the query
translator: `None` means `range(self._get_num_models(bdb, generator_id))`. -/
def resolve_modelnos (s : LoomStore) (generator_id : Int)
    (modelnos : Option (List Int)) : Option (List Int) :=
  match modelnos with
  | some ms => some ms
  | none => (get_num_models s generator_id).map
      (fun n => (List.range n.toNat).map Int.ofNat)

/-- One iteration of the `column_dependence_probability` loop: 1 if the two
columns share a kind id in the model, else 0; `none` embeds a raised lookup
failure in `_get_kind_id`. -/
def dependence_hit (s : LoomStore) (generator_id modelno colno0 colno1 : Int) :
    Option ℚ := do
  let k0 ← get_kind_id s generator_id modelno colno0
  let k1 ← get_kind_id s generator_id modelno colno1
  pure (if k0 = k1 then (1 : ℚ) else 0)

/-- `column_dependence_probability`: mean over the chosen models of the
co-kinded indicator; `sum(hit_list)/float(len(hit_list))` raises
`ZeroDivisionError` on an empty model list, embedded as `none`. -/
def column_dependence_probability (s : LoomStore) (generator_id : Int)
    (modelnos : Option (List Int)) (colno0 colno1 : Int) : Option ℚ := do
  let ms ← resolve_modelnos s generator_id modelnos
  let hit_list ← ms.mapM (fun m => dependence_hit s generator_id m colno0 colno1)
  if hit_list.length = 0 then none
  else pure (hit_list.sum / (hit_list.length : ℚ))

/-- Concrete store for the dependence-probability scenario: generator 1 with
3 trained models; columns 0 and 1 are co-kinded in models 0 and 1 but not in
model 2. -/
def c2_store : LoomStore :=
  { generator_tbl := [⟨1, "g1", "p1"⟩]
    model_info := [⟨1, 3⟩]
    string_encoding := []
    column_ordering := [⟨1, 0, 0⟩, ⟨1, 1, 1⟩]
    column_kind_partition :=
      [⟨1, 0, 0, 0⟩, ⟨1, 0, 1, 0⟩,
       ⟨1, 1, 0, 2⟩, ⟨1, 1, 1, 2⟩,
       ⟨1, 2, 0, 0⟩, ⟨1, 2, 1, 1⟩]
    row_kind_partition := [] }

/-- One column entry of loom's `ingest/encoding.json.gz`: the column's name
and, for categorical columns, its symbol table (string form to integer
form). -/
structure EncodingColumn where
  name : String
  symbols : Option (List (String × Int))

/-- The string-encoding insertion loop of `_store_encoding_info`: for each
symbol column, one `bayesdb_loom_string_encoding` row per symbol; `none`
embeds a failed `core.bayesdb_table_column_number` lookup. -/
def string_encoding_rows (generator_id : Int) (tcn : String → Option Int) :
    List EncodingColumn → Option (List StringEncodingRow)
  | [] => some []
  | col :: rest => do
      let head ← match col.symbols with
        | none => some ([] : List StringEncodingRow)
        | some syms => (tcn col.name).map (fun colno =>
            syms.map (fun sf =>
              (⟨generator_id, colno, sf.1, sf.2⟩ : StringEncodingRow)))
      let tail ← string_encoding_rows generator_id tcn rest
      pure (head ++ tail)

/-- The column-ordering insertion loop of `_store_encoding_info`: one
`bayesdb_loom_column_ordering` row per encoding entry, with rank equal to the
entry's index (`i` is the running index of the loop). -/
def order_rows_from (generator_id : Int) (tcn : String → Option Int) :
    List EncodingColumn → Nat → Option (List ColumnOrderingRow)
  | [], _ => some []
  | col :: rest, i => do
      let colno ← tcn col.name
      let tail ← order_rows_from generator_id tcn rest (i + 1)
      pure (⟨generator_id, colno, Int.ofNat i⟩ :: tail)

/-- Value produced by `order_rows_from` when every name lookup succeeds. -/
def order_rows_val (generator_id : Int) (tcn : String → Option Int) :
    List EncodingColumn → Nat → List ColumnOrderingRow
  | [], _ => []
  | col :: rest, i =>
      ⟨generator_id, (tcn col.name).getD 0, Int.ofNat i⟩ ::
        order_rows_val generator_id tcn rest (i + 1)

/-- `_store_encoding_info`: append the string-encoding rows of all symbol
columns and one column-ordering row per encoding entry (rank = entry index)
to the store. -/
def store_encoding_info (s : LoomStore) (generator_id : Int)
    (encoding : List EncodingColumn) (tcn : String → Option Int) :
    Option LoomStore := do
  let enc ← string_encoding_rows generator_id tcn encoding
  let ord ← order_rows_from generator_id tcn encoding 0
  pure { s with string_encoding := s.string_encoding ++ enc,
                column_ordering := s.column_ordering ++ ord }

/-- `_get_order`: the generator's column numbers sorted by ascending rank
(SQL `ORDER BY rank ASC`). -/
def get_order (s : LoomStore) (generator_id : Int) : List Int :=
  ((s.column_ordering.filter
      (fun r => r.generator_id == generator_id)).insertionSort
    (fun a b => a.rank ≤ b.rank)).map (fun r => r.colno)

/-- Concrete encoding file for the C8 witness: two columns, the second
categorical. -/
def c8_encoding : List EncodingColumn :=
  [⟨"a", none⟩, ⟨"b", some [("x", 0), ("y", 1)]⟩]

/-- Concrete host-table column numbering for the C8 witness. -/
def c8_tcn : String → Option Int :=
  fun n => if n = "a" then some 10 else if n = "b" then some 20 else none

/-- Empty store for the C8 witness. -/
def c8_store : LoomStore :=
  { generator_tbl := [⟨1, "g1", "p1"⟩]
    model_info := []
    string_encoding := []
    column_ordering := []
    column_kind_partition := []
    row_kind_partition := [] }

/-- Per-model serialized artifact content as reconstructed by the Partition
Extractor: `column_partition` is the rank-to-kind-id dictionary of
`_retrieve_column_partition`, and `row_partition` the kind-to-cluster-id-list
dictionary of `_retrieve_row_partition` (cluster ids listed in sorted rowid
order). -/
structure ModelArtifact where
  column_partition : List (Int × Int)
  row_partition : List (Int × List Int)

/-- `_get_loom_rank`: point lookup in `bayesdb_loom_column_ordering`. -/
def get_loom_rank (s : LoomStore) (generator_id colno : Int) : Option Int :=
  (s.column_ordering.find? (fun r =>
    r.generator_id == generator_id && r.colno == colno)).map (fun r => r.rank)

/-- The column-kind row `_store_kind_partition` inserts for one variable of
one model: its kind id is the artifact's kind at the variable's loom rank;
`none` embeds a failed rank or kind lookup. -/
def ckp_row_for (s : LoomStore) (generator_id modelno colno : Int)
    (art : ModelArtifact) : Option ColumnKindRow := do
  let rank ← get_loom_rank s generator_id colno
  let kind ← art.column_partition.lookup rank
  pure (⟨generator_id, modelno, colno, kind⟩ : ColumnKindRow)

/-- The column-kind rows `_store_kind_partition` inserts for one model: one
row per population variable. -/
def gen_ckp_rows (s : LoomStore) (generator_id modelno : Int)
    (art : ModelArtifact) (colnos : List Int) : Option (List ColumnKindRow) :=
  colnos.mapM (fun colno => ckp_row_for s generator_id modelno colno art)

/-- The row-kind rows `_store_kind_partition` inserts for one model: for each
kind of the artifact, host row ids are the dense 1-indexed ordinal positions
of the cluster ids in artifact order. -/
def gen_rkp_rows (generator_id modelno : Int) (art : ModelArtifact) :
    List RowKindRow :=
  art.row_partition.flatMap (fun kp =>
    kp.2.enum.map (fun p =>
      (⟨generator_id, modelno, Int.ofNat p.1 + 1, kp.1, p.2⟩ : RowKindRow)))

/-- One iteration of the `_store_kind_partition` model loop: bulk-insert the
generated column-kind and row-kind rows of the model. -/
def store_kind_partition_model (s : LoomStore) (generator_id modelno : Int)
    (art : ModelArtifact) (colnos : List Int) : Option LoomStore := do
  let ckp ← gen_ckp_rows s generator_id modelno art colnos
  pure { s with
    column_kind_partition := s.column_kind_partition ++ ckp,
    row_kind_partition :=
      s.row_kind_partition ++ gen_rkp_rows generator_id modelno art }

/-- `_store_kind_partition`: resolve `modelnos is None` to
`range(num_models)` and run the per-model insertion loop. -/
def store_kind_partition (s : LoomStore) (generator_id : Int)
    (modelnos : Option (List Int)) (arts : Int → ModelArtifact)
    (colnos : List Int) : Option LoomStore := do
  let ms ← resolve_modelnos s generator_id modelnos
  ms.foldlM (fun acc m =>
    store_kind_partition_model acc generator_id m (arts m) colnos) s

/-- The partition-store effect of one `analyze_models` extraction run with a
fixed set of serialized per-model artifacts: `drop_models` removes the
selected models' prior partition rows, then `_store_kind_partition`
re-extracts and bulk-inserts them from the artifacts (`loom.tasks.infer` is
external and does not touch the store). -/
def extraction_run (s : LoomStore) (generator_id : Int)
    (modelnos : Option (List Int)) (arts : Int → ModelArtifact)
    (colnos : List Int) : Option LoomStore :=
  store_kind_partition (drop_models_store s generator_id modelnos)
    generator_id modelnos arts colnos

/-- The row-selection predicate of `drop_models`: a partition row is deleted
exactly when it belongs to the generator and (with an explicit subset) to one
of the listed model numbers. -/
def modelnos_match (generator_id : Int) (modelnos : Option (List Int))
    (r_gid r_m : Int) : Bool :=
  r_gid == generator_id &&
    (match modelnos with
     | none => true
     | some ms => decide (r_m ∈ ms))

/-- Concrete store for the C7 witness: generator 1 with two ordered columns
and empty partition tables. -/
def c7_store : LoomStore :=
  { generator_tbl := [⟨1, "g1", "p1"⟩]
    model_info := [⟨1, 1⟩]
    string_encoding := []
    column_ordering := [⟨1, 0, 0⟩, ⟨1, 1, 1⟩]
    column_kind_partition := []
    row_kind_partition := [] }

/-- Concrete fixed per-model artifact for the C7 witness: both ranks in kind
0, two rows in kind 0 assigned to clusters 5 and 5. -/
def c7_arts : Int → ModelArtifact :=
  fun _ => ⟨[(0, 0), (1, 0)], [(0, [5, 5])]⟩

/-- Python's `str.lower()`, modelled character-wise (definitionally
computable, unlike `String.toLower`). -/
def str_lower (s : String) : String := String.mk (s.data.map Char.toLower)

/-- Engine-facing value affinity of a statistical type.
Modelled from the spec: the affinity map (`core._STATTYPE_TO_AFFINITY`, in
bayeslite core outside the shown sources) maps each declared statistical type
to exactly two engine-facing affinities — `real` for numeric columns (parsed
as floating point) and `text` for categorical columns (translated through the
Column Encoding). -/
def stattype_affinity (stattype : String) : String :=
  if stattype = "numerical" ∨ stattype = "cyclic" ∨ stattype = "counts" then
    "real"
  else "text"

/-- A value returned from joint simulation: numeric columns are cast to
floats, the rest stay strings. -/
inductive LVal where
  | str (s : String)
  | real (q : ℚ)
deriving DecidableEq

/-- Failures of `simulate_joint`, in raise order: the constraint/row conflict
`ValueError`, the `zip(*row)` unpack `ValueError` on an all-null row, the
`zip(*row.iteritems())` unpack `ValueError` on an empty request, a `KeyError`
when a target column is missing from a returned row, and a `float()` parse
`ValueError`. -/
inductive SimError where
  | conflict
  | emptyRowUnpack
  | emptyRequest
  | missingTargetColumn
  | floatParseFailure
deriving DecidableEq

/-- The known (non-null) values of an existing row keyed by positional index:
`[entry for entry in zip(range(len(row_values)), row_values) if entry[1] is
not None]`.  Values are modelled in their engine-facing string form. -/
def known_row_entries (row_values : List (Option String)) :
    List (Nat × String) :=
  row_values.enum.filterMap (fun p => p.2.map (fun v => (p.1, v)))

/-- Lines 671-687 of `simulate_joint`: for an existing (non-fresh) row, merge
its known values into the constraint set, raising the conflict `ValueError`
whenever any explicit constraint column is also a known row column. -/
def merge_row_constraints (fresh : Bool) (row_values : List (Option String))
    (constraints : List (Nat × String)) :
    Except SimError (List (Nat × String)) :=
  if fresh then .ok constraints
  else
    let row := known_row_entries row_values
    if row.isEmpty then .error .emptyRowUnpack
    else
      let constraints_colnos := constraints.map Prod.fst
      if row.any (fun e => decide (e.1 ∈ constraints_colnos)) then
        .error .conflict
      else .ok (constraints ++ row)

/-- Python dict assignment on an insertion-ordered association list: update
in place when the key exists, append otherwise. -/
def dict_set (d : List (String × String)) (k v : String) :
    List (String × String) :=
  if d.any (fun p => p.1 == k) then
    d.map (fun p => if p.1 == k then (k, v) else p)
  else d ++ [(k, v)]

/-- The single-row tabular request of `simulate_joint`: a dict over
target ∪ constraint column names — targets first with unset (empty string)
values, then constraint values overwriting on overlap. -/
def simulate_request (columnName : Nat → String) (targets : List Nat)
    (constraints2 : List (Nat × String)) : List (String × String) :=
  constraints2.foldl (fun d p => dict_set d (columnName p.1) p.2)
    (targets.foldl (fun d colno => dict_set d (columnName colno) "") [])

/-- The loom prediction server: `predict` receives the lower-cased request
headers, the request values and the sample count, and yields `num_samples`
rows, each an association list keyed by the lower-cased header names (the
source maps returned lower-case headers back through `lower_to_upper`;
following the source's TODO we assume no case collisions among column
names). -/
structure SimEngine where
  predict : List String → List String → Nat → List (List (String × String))

/-- Cast one returned value according to the column's affinity: numeric
columns go through the `float` parser, others stay strings. -/
def parse_sim_value (pf : String → Option ℚ) (stattypeOf : Nat → String)
    (colno : Nat) (v : String) : Except SimError LVal :=
  if stattype_affinity (stattypeOf colno) == "real" then
    match pf v with
    | some q => .ok (.real q)
    | none => .error .floatParseFailure
  else .ok (.str v)

/-- Parse one returned engine row back into target order, casting the value
to numeric when the column's statistical type maps to the real affinity. -/
def parse_sim_row (pf : String → Option ℚ) (columnName : Nat → String)
    (stattypeOf : Nat → String) (targets : List Nat)
    (row : List (String × String)) : Except SimError (List LVal) :=
  targets.mapM (fun colno =>
    match row.lookup (str_lower (columnName colno)) with
    | none => .error .missingTargetColumn
    | some v => parse_sim_value pf stattypeOf colno v)

/-- `simulate_joint`: merge an existing row's known values into the
constraints (conflicts raise before anything else), build the single-row
tabular request, issue one predict call and parse the returned rows back
into target order.  The second component counts the engine predict calls
made, so error paths before the engine call carry count 0.
`pf` embeds Python's `float` parser and `columnName`/`stattypeOf` the bayesdb
catalog lookups. -/
def simulate_joint (eng : SimEngine) (pf : String → Option ℚ)
    (columnName : Nat → String) (stattypeOf : Nat → String) (fresh : Bool)
    (row_values : List (Option String)) (targets : List Nat)
    (constraints : List (Nat × String)) (num_samples : Nat) :
    Except SimError (List (List LVal)) × Nat :=
  match merge_row_constraints fresh row_values constraints with
  | .error e => (.error e, 0)
  | .ok constraints2 =>
      let req := simulate_request columnName targets constraints2
      if req.isEmpty then (.error .emptyRequest, 0)
      else
        let csv_headers := req.map (fun p => str_lower p.1)
        let csv_values := req.map Prod.snd
        let out_rows := eng.predict csv_headers csv_values num_samples
        (out_rows.mapM (parse_sim_row pf columnName stattypeOf targets), 1)

/-- Failures of `predict_confidence`: the `assert numsamples > 0`, a
propagated simulation failure, the `max()`/`next()`/`s[0]` failures on an
empty sample, a `TypeError` summing non-numeric values, and the
`ZeroDivisionError` of the mean. -/
inductive PCError where
  | assertionFailed
  | sim (e : SimError)
  | emptySample
  | typeMismatch
  | zeroDivision
deriving DecidableEq

/-- `if not numsamples: numsamples = 2` — both `None` and the falsy `0` are
replaced by the default 2. -/
def resolve_numsamples (numsamples : Option Int) : Int :=
  match numsamples with
  | none => 2
  | some k => if k = 0 then 2 else k

/-- `bayeslite.util.casefold`. -/
def casefold (s : String) : String := str_lower s

/-- `_is_categorical` of `predict_confidence`. -/
def is_categorical (stattype : String) : Bool :=
  (["categorical", "nominal", "unboundedcategorical"] : List String).contains
    (casefold stattype)

/-- The value counter of `_impute_categorical`
(`Counter(s[0] for s in sample)`), entries in first-occurrence order (a
deterministic stand-in for the unordered Python dict). -/
def value_counts (vals : List LVal) : List (LVal × Nat) :=
  vals.foldl (fun acc v =>
    if acc.any (fun p => p.1 == v) then
      acc.map (fun p => if p.1 == v then (p.1, p.2 + 1) else p)
    else acc ++ [(v, 1)]) []

/-- The `next(...)` step of `_impute_categorical`: the first counter entry
with the mode count, paired with the mode count over `numsamples`. -/
def impute_mode_entry (counts : List (LVal × Nat)) (mode_count : Nat)
    (numsamples : Int) : Except PCError (LVal × ℚ) :=
  match counts.find? (fun p => p.2 == mode_count) with
  | none => .error .emptySample
  | some p => .ok (p.1, (mode_count : ℚ) / (numsamples : ℚ))

/-- `_impute_categorical` on the extracted first values of the sample rows:
`max()` over the counter raises on an empty sample. -/
def impute_categorical_vals (vals : List LVal) (numsamples : Int) :
    Except PCError (LVal × ℚ) :=
  match ((value_counts vals).map Prod.snd).max? with
  | none => .error .emptySample
  | some mode_count => impute_mode_entry (value_counts vals) mode_count numsamples

/-- `_impute_categorical`: the first value of maximal count, paired with the
mode count divided by `numsamples` (`s[0]` raises on an empty sample row). -/
def impute_categorical (sample : List (List LVal)) (numsamples : Int) :
    Except PCError (LVal × ℚ) :=
  match sample.mapM List.head? with
  | none => .error .emptySample
  | some vals => impute_categorical_vals vals numsamples

/-- `float(...)`-compatible extraction of a numeric sample value; a string in
the numeric branch is the `TypeError` of `sum`. -/
def lval_to_rat (v : LVal) : Option ℚ :=
  match v with
  | .real q => some q
  | .str _ => none

/-- The final mean step of `_impute_numerical`: `sum(...)/float(len(sample))`
with confidence 0. -/
def impute_numerical_qs (qs : List ℚ) (slen : Nat) :
    Except PCError (LVal × ℚ) :=
  if slen = 0 then .error .zeroDivision
  else .ok (.real (qs.sum / (slen : ℚ)), 0)

/-- `_impute_numerical` on the extracted first values: the mean over
`len(sample)` with confidence 0. -/
def impute_numerical_vals (vals : List LVal) (slen : Nat) :
    Except PCError (LVal × ℚ) :=
  match vals.mapM lval_to_rat with
  | none => .error .typeMismatch
  | some qs => impute_numerical_qs qs slen

/-- `_impute_numerical`: the mean of the drawn values with confidence 0. -/
def impute_numerical (sample : List (List LVal)) : Except PCError (LVal × ℚ) :=
  match sample.mapM List.head? with
  | none => .error .emptySample
  | some vals => impute_numerical_vals vals sample.length

/-- `predict_confidence`: default the sample count, assert positivity, draw
the joint simulations with empty explicit constraints (the row's known values
are merged inside `simulate_joint`), then impute by mode or mean according to
the column's statistical type. -/
def predict_confidence (eng : SimEngine) (pf : String → Option ℚ)
    (columnName : Nat → String) (stattypeOf : Nat → String) (fresh : Bool)
    (row_values : List (Option String)) (colno : Nat)
    (numsamples : Option Int) : Except PCError (LVal × ℚ) :=
  let n := resolve_numsamples numsamples
  if n ≤ 0 then .error .assertionFailed
  else
    match (simulate_joint eng pf columnName stattypeOf fresh row_values
        [colno] [] n.toNat).1 with
    | .error e => .error (.sim e)
    | .ok sample =>
        if is_categorical (stattypeOf colno) then impute_categorical sample n
        else impute_numerical sample

/-- Engine for the C5 witness: every drawn row answers `red` for the target
column. -/
def c5_engine : SimEngine :=
  ⟨fun _ _ n => List.replicate n [("color", "red")]⟩

/-- Column names for the C1/C5 scenarios: column 0 is `color`, column 1 is
`size`. -/
def c5_names : Nat → String :=
  fun n => if n = 0 then "color" else "size"

/-- Statistical types for the C1/C5 scenarios: both columns categorical. -/
def c5_stattypes : Nat → String :=
  fun n => if n = 0 then "categorical" else "nominal"

/-- Existing row for the C5 witness: target column null, the other column
known. -/
def c5_row : List (Option String) := [none, some "blue"]

/-- A target or constraint value handed to `logpdf_joint`. -/
inductive InVal where
  | null
  | str (s : String)
  | num (q : ℚ)
deriving DecidableEq

/-- Failures of `logpdf_joint` value conversion: a `float()` parse
`ValueError` or a missing string-encoding row (`util.cursor_value` on an
empty cursor; also raised when a non-string value reaches the text-affinity
lookup). -/
inductive LPError where
  | floatParseFailure
  | encodingMiss
deriving DecidableEq

/-- `_get_integer_form`: point lookup in `bayesdb_loom_string_encoding`. -/
def get_integer_form (s : LoomStore) (generator_id colno : Int)
    (string_form : String) : Option Int :=
  (s.string_encoding.find? (fun r =>
    r.generator_id == generator_id && r.colno == colno
      && r.string_form == string_form)).map (fun r => r.integer_form)

/-- `_convert_to_proper_stattype`: `None` passes through, real-affinity
values go through `float()`, text-affinity string values through the string
encoding. -/
def convert_to_proper_stattype (pf : String → Option ℚ) (s : LoomStore)
    (generator_id : Int) (stattypeOf : Int → String) (colno : Int)
    (value : InVal) : Except LPError (Option ℚ) :=
  match value with
  | .null => .ok none
  | .str t =>
      if stattype_affinity (stattypeOf colno) == "real" then
        match pf t with
        | some q => .ok (some q)
        | none => .error .floatParseFailure
      else
        match get_integer_form s generator_id colno t with
        | some i => .ok ((i : ℚ))
        | none => .error .encodingMiss
  | .num q =>
      if stattype_affinity (stattypeOf colno) == "real" then .ok (some q)
      else .error .encodingMiss

/-- Python dict assignment on the insertion-ordered association lists
embedding the `OrderedDict`s of `logpdf_joint`. -/
def od_set (d : List (String × Option ℚ)) (k : String) (v : Option ℚ) :
    List (String × Option ℚ) :=
  if d.any (fun p => p.1 == k) then
    d.map (fun p => if p.1 == k then (k, v) else p)
  else d ++ [(k, v)]

/-- A sequence of dict assignments applied in order. -/
def apply_od_updates (d : List (String × Option ℚ))
    (us : List (String × Option ℚ)) : List (String × Option ℚ) :=
  us.foldl (fun d u => od_set d u.1 u.2) d

/-- One iteration of the target loop of `logpdf_joint`: convert the target
value, assign it in the `and` dict and assign `None` in the `conditional`
dict. -/
def lp_target_step (pf : String → Option ℚ) (s : LoomStore)
    (generator_id : Int) (variableName : Int → String)
    (stattypeOf : Int → String)
    (dc : List (String × Option ℚ) × List (String × Option ℚ))
    (p : Int × InVal) :
    Except LPError (List (String × Option ℚ) × List (String × Option ℚ)) := do
  let v ← convert_to_proper_stattype pf s generator_id stattypeOf p.1 p.2
  pure (od_set dc.1 (variableName p.1) v, od_set dc.2 (variableName p.1) none)

/-- One iteration of the constraint loop of `logpdf_joint`: convert the
constraint value and assign it in both dicts. -/
def lp_constraint_step (pf : String → Option ℚ) (s : LoomStore)
    (generator_id : Int) (variableName : Int → String)
    (stattypeOf : Int → String)
    (dc : List (String × Option ℚ) × List (String × Option ℚ))
    (p : Int × InVal) :
    Except LPError (List (String × Option ℚ) × List (String × Option ℚ)) := do
  let v ← convert_to_proper_stattype pf s generator_id stattypeOf p.1 p.2
  pure (od_set dc.1 (variableName p.1) v, od_set dc.2 (variableName p.1) v)

/-- `logpdf_joint`: build the `and` and `conditional` OrderedDicts over every
known column in engine rank order (targets first, then constraints
overwriting on overlap; the conditional dict gets only the constraint
values), score both value vectors with the cached query handle, and return
the difference of the two scores.  `score` embeds the cached
`q_server.score` handle and `pf` Python's `float` parser. -/
def logpdf_joint (score : List (Option ℚ) → ℚ) (pf : String → Option ℚ)
    (s : LoomStore) (generator_id : Int) (variableName : Int → String)
    (stattypeOf : Int → String) (targets constraints : List (Int × InVal)) :
    Except LPError ℚ := do
  let labels := (get_order s generator_id).map variableName
  let d0 := labels.map (fun l => (l, (none : Option ℚ)))
  let dc1 ← targets.foldlM
    (lp_target_step pf s generator_id variableName stattypeOf) (d0, d0)
  let dc2 ← constraints.foldlM
    (lp_constraint_step pf s generator_id variableName stattypeOf) dc1
  let and_case := dc2.1.map Prod.snd
  let conditional_case := dc2.2.map Prod.snd
  pure (score and_case - score conditional_case)

/-- The spec's `and` vector: one position per known column in engine rank
order, holding the converted constraint value, else the converted target
value, else unset. -/
def and_case_spec (cv : Int → InVal → Option ℚ) (variableName : Int → String)
    (targets constraints : List (Int × InVal)) (labels : List String) :
    List (Option ℚ) :=
  labels.map (fun l =>
    match constraints.find? (fun p => variableName p.1 == l) with
    | some p => cv p.1 p.2
    | none =>
        match targets.find? (fun p => variableName p.1 == l) with
        | some p => cv p.1 p.2
        | none => none)

/-- The spec's `conditional` vector: only the converted constraint values are
filled in, every other position is unset. -/
def conditional_case_spec (cv : Int → InVal → Option ℚ)
    (variableName : Int → String) (constraints : List (Int × InVal))
    (labels : List String) : List (Option ℚ) :=
  labels.map (fun l =>
    match constraints.find? (fun p => variableName p.1 == l) with
    | some p => cv p.1 p.2
    | none => none)

/-- The dict updates performed by the target loop on the `and` dict and by
the constraint loop on both dicts. -/
def value_updates (cv : Int → InVal → Option ℚ) (variableName : Int → String)
    (ps : List (Int × InVal)) : List (String × Option ℚ) :=
  ps.map (fun p => (variableName p.1, cv p.1 p.2))

/-- The dict updates performed by the target loop on the `conditional` dict:
every target position is explicitly unset. -/
def none_updates (variableName : Int → String) (ps : List (Int × InVal)) :
    List (String × Option ℚ) :=
  ps.map (fun p => (variableName p.1, (none : Option ℚ)))

/-- Store for the C6 witness: generator 1 with two ordered columns, column 1
categorical with encoded symbol "x". -/
def c6_store : LoomStore :=
  { generator_tbl := [⟨1, "g1", "p1"⟩]
    model_info := [⟨1, 1⟩]
    string_encoding := [⟨1, 1, "x", 4⟩]
    column_ordering := [⟨1, 0, 0⟩, ⟨1, 1, 1⟩]
    column_kind_partition := []
    row_kind_partition := [] }

/-- Column names for the C6 witness. -/
def c6_names : Int → String :=
  fun n => if n = 0 then "c" else "d"

/-- Statistical types for the C6 witness: column 0 numerical, column 1
categorical. -/
def c6_stattypes : Int → String :=
  fun n => if n = 0 then "numerical" else "categorical"

/-- Score oracle for the C6 witness: sum of the set entries of the value
vector. -/
def c6_score : List (Option ℚ) → ℚ :=
  fun vec => (vec.map (fun o => o.getD 0)).sum

/-- Converted values for the C6 witness. -/
def c6_cv : Int → InVal → Option ℚ :=
  fun colno v =>
    match v with
    | .num q => if colno = 0 then some q else none
    | .str _ => if colno = 1 then some 4 else none
    | .null => none

end LoomVerification

namespace LoomVerification

/-- `List.lookup` on a cons cell whose key matches. -/
theorem lookup_cons_self {β : Type} (a : Int) (b : β) (t : List (Int × β)) :
    List.lookup a ((a, b) :: t) = some b := by
  rw [List.lookup_cons]
  simp

/-- `List.lookup` on a cons cell whose key differs. -/
theorem lookup_cons_ne {β : Type} {g a : Int} (b : β) (t : List (Int × β))
    (h : ¬ g = a) :
    List.lookup g ((a, b) :: t) = List.lookup g t := by
  rw [List.lookup_cons]
  have hb : (g == a) = false := by simp [h]
  rw [hb]

/-- `List.lookup` after removing every pair keyed `x` (Python `del d[x]`). -/
theorem lookup_filter_out {β : Type} (l : List (Int × β)) (x g : Int) :
    (l.filter (fun p => !(p.1 == x))).lookup g =
      if g = x then none else l.lookup g := by
  induction l with
  | nil => simp
  | cons p t ih =>
      rcases p with ⟨a, b⟩
      rw [List.filter_cons]
      by_cases ha : a = x
      · have hc : (!((a, b).1 == x)) = false := by simp [ha]
        rw [hc, if_neg (by simp), ih]
        by_cases hg : g = x
        · simp [hg]
        · rw [if_neg hg, if_neg hg, lookup_cons_ne b t (fun h => hg (ha ▸ h))]
      · have hc : (!((a, b).1 == x)) = true := by simp [ha]
        rw [hc, if_pos rfl]
        by_cases hg : g = a
        · subst hg
          have hgx : ¬ g = x := ha
          rw [lookup_cons_self, lookup_cons_self, if_neg hgx]
        · rw [lookup_cons_ne b _ hg, lookup_cons_ne b t hg, ih]

/-- `List.lookup` after updating every pair keyed `x` in place. -/
theorem lookup_map_at {β : Type} (l : List (Int × β)) (x : Int) (f : β → β)
    (g : Int) :
    (l.map (fun p => if p.1 == x then (p.1, f p.2) else p)).lookup g =
      if g = x then (l.lookup g).map f else l.lookup g := by
  induction l with
  | nil => simp
  | cons p t ih =>
      rcases p with ⟨a, b⟩
      rw [List.map_cons]
      by_cases ha : a = x
      · have hc : ((a, b).1 == x) = true := by simp [ha]
        rw [if_pos hc]
        by_cases hg : g = a
        · subst hg
          rw [lookup_cons_self, lookup_cons_self, if_pos ha]
          rfl
        · rw [lookup_cons_ne (f b) _ hg, lookup_cons_ne b t hg, ih]
      · have hc : ((a, b).1 == x) = false := by simp [ha]
        rw [if_neg (by simp [hc])]
        by_cases hg : g = a
        · subst hg
          have hgx : ¬ g = x := ha
          rw [lookup_cons_self, lookup_cons_self, if_neg hgx]
        · rw [lookup_cons_ne b _ hg, lookup_cons_ne b t hg, ih]

/-- `List.lookup` after `del_cache_entry _ _ none`: the generator's entry is
gone and every other generator's entry is untouched. -/
theorem lookup_del_cache_entry_none {α : Type} (cache : Cache α)
    (generator_id g : Int) :
    (del_cache_entry cache generator_id none).lookup g =
      if g = generator_id then none else cache.lookup g := by
  rw [del_cache_entry, lookup_filter_out]

/-- `List.lookup` after `del_cache_entry _ _ (some k)`: the generator's entry
loses key `k`, every other generator's entry is untouched. -/
theorem lookup_del_cache_entry_some {α : Type} (cache : Cache α)
    (generator_id g : Int) (k : String) :
    (del_cache_entry cache generator_id (some k)).lookup g =
      if g = generator_id then
        (cache.lookup g).map (fun entries => entries.filter (fun q => !(q.1 == k)))
      else cache.lookup g := by
  rw [del_cache_entry]
  exact lookup_map_at cache generator_id
    (fun entries => entries.filter (fun q => !(q.1 == k))) g

/-- C4: `drop_generator` deletes every row keyed by the generator id across all
six Loom SQL tables while leaving every other generator's rows unchanged (each
table becomes exactly its filter to the other generator ids), removes the
generator's entire cache entry for the connection (lookups for other
generators are untouched), and a subsequent name or model-count lookup against
the dropped generator id fails as a lookup error (`none`) rather than
returning a stale result. -/
theorem drop_generator_deletes_everything (α : Type) (s : LoomStore)
    (cache : Cache α) (gid : Int) :
    ((drop_generator s cache gid).1.generator_tbl
        = s.generator_tbl.filter (fun r => !(r.generator_id == gid)))
  ∧ ((drop_generator s cache gid).1.model_info
        = s.model_info.filter (fun r => !(r.generator_id == gid)))
  ∧ ((drop_generator s cache gid).1.string_encoding
        = s.string_encoding.filter (fun r => !(r.generator_id == gid)))
  ∧ ((drop_generator s cache gid).1.column_ordering
        = s.column_ordering.filter (fun r => !(r.generator_id == gid)))
  ∧ ((drop_generator s cache gid).1.column_kind_partition
        = s.column_kind_partition.filter (fun r => !(r.generator_id == gid)))
  ∧ ((drop_generator s cache gid).1.row_kind_partition
        = s.row_kind_partition.filter (fun r => !(r.generator_id == gid)))
  ∧ (∀ r ∈ (drop_generator s cache gid).1.generator_tbl, r.generator_id ≠ gid)
  ∧ ((drop_generator s cache gid).2.lookup gid = none)
  ∧ (∀ g, g ≠ gid → (drop_generator s cache gid).2.lookup g = cache.lookup g)
  ∧ (get_name (drop_generator s cache gid).1 gid = none)
  ∧ (get_num_models (drop_generator s cache gid).1 gid = none) := by
  refine ⟨rfl, rfl, rfl, rfl, rfl, rfl, ?_, ?_, ?_, ?_, ?_⟩
  · intro r hr
    have h2 := (List.mem_filter.mp hr).2
    simpa using h2
  · show (del_cache_entry (del_cache_entry (del_cache_entry cache gid none)
        gid (some "q_server")) gid (some "preql_server")).lookup gid = none
    rw [lookup_del_cache_entry_some, if_pos rfl, lookup_del_cache_entry_some,
      if_pos rfl, lookup_del_cache_entry_none, if_pos rfl]
    rfl
  · intro g hg
    show (del_cache_entry (del_cache_entry (del_cache_entry cache gid none)
        gid (some "q_server")) gid (some "preql_server")).lookup g = cache.lookup g
    rw [lookup_del_cache_entry_some, if_neg hg, lookup_del_cache_entry_some,
      if_neg hg, lookup_del_cache_entry_none, if_neg hg]
  · rw [get_name]
    have hfind : (drop_generator s cache gid).1.generator_tbl.find?
        (fun r => r.generator_id == gid) = none := by
      rw [List.find?_eq_none]
      intro r hr
      have h2 := (List.mem_filter.mp hr).2
      simpa using h2
    rw [hfind]
    rfl
  · rw [get_num_models]
    have hfind : (drop_generator s cache gid).1.model_info.find?
        (fun r => r.generator_id == gid) = none := by
      rw [List.find?_eq_none]
      intro r hr
      have h2 := (List.mem_filter.mp hr).2
      simpa using h2
    rw [hfind]
    rfl

/-- C3: evidence of the divergence between spec and code.  Calling
`drop_models` for the explicit model subset `[0]` of generator 1 does remove
exactly the Column Kind Partition and Row Kind Partition rows of
(generator 1, model 0) — rows of model 1 and of generator 2 survive — but it
leaves the per-connection cache completely untouched, so the cached `q_server`
and `preql_server` handles of generator 1 are still returned from the cache
after the drop, contradicting the claimed invalidation. -/
theorem drop_models_subset_leaves_cached_handles :
    ((drop_models c3_store c3_cache 1 (some [0])).1.column_kind_partition
        = [⟨1, 1, 0, 1⟩, ⟨2, 0, 0, 0⟩])
  ∧ ((drop_models c3_store c3_cache 1 (some [0])).1.row_kind_partition
        = [⟨1, 1, 1, 1, 0⟩, ⟨2, 0, 1, 0, 0⟩])
  ∧ ((drop_models c3_store c3_cache 1 (some [0])).2 = c3_cache)
  ∧ (get_cache_entry (drop_models c3_store c3_cache 1 (some [0])).2 1 "q_server"
        = some 7)
  ∧ (get_cache_entry (drop_models c3_store c3_cache 1 (some [0])).2 1
        "preql_server" = some 8) := by
  refine ⟨by decide, by decide, rfl, rfl, rfl⟩

/-- The per-model dependence indicator, when both kind lookups succeed,
compares the looked-up kind ids. -/
theorem dependence_hit_eq (s : LoomStore) (gid m c0 c1 : Int)
    (h0 : (get_kind_id s gid m c0).isSome)
    (h1 : (get_kind_id s gid m c1).isSome) :
    dependence_hit s gid m c0 c1 =
      some (if get_kind_id s gid m c0 = get_kind_id s gid m c1 then (1 : ℚ)
        else 0) := by
  obtain ⟨a, ha⟩ := Option.isSome_iff_exists.mp h0
  obtain ⟨b, hb⟩ := Option.isSome_iff_exists.mp h1
  unfold dependence_hit
  rw [ha, hb]
  by_cases hab : a = b
  · simp [hab]
  · have hne : ¬ (some a : Option Int) = some b := by simp [hab]
    simp [hab, hne]

/-- The per-model dependence indicator is symmetric in the two columns,
failure cases included. -/
theorem dependence_hit_symm (s : LoomStore) (gid m c0 c1 : Int) :
    dependence_hit s gid m c0 c1 = dependence_hit s gid m c1 c0 := by
  unfold dependence_hit
  cases h0 : get_kind_id s gid m c0 <;> cases h1 : get_kind_id s gid m c1 <;>
    simp
  rename_i a b
  by_cases hab : a = b
  · simp [hab]
  · rw [if_neg hab, if_neg (fun h => hab h.symm)]

/-- Under everywhere-successful kind lookups, the hit-list computation
succeeds and produces the list of indicators. -/
theorem mapM_dependence_hit (s : LoomStore) (gid c0 c1 : Int) :
    ∀ ms : List Int,
      (∀ m ∈ ms, (get_kind_id s gid m c0).isSome ∧
        (get_kind_id s gid m c1).isSome) →
      ms.mapM (fun m => dependence_hit s gid m c0 c1) =
        some (ms.map (fun m =>
          if get_kind_id s gid m c0 = get_kind_id s gid m c1 then (1 : ℚ)
          else 0)) := by
  intro ms
  induction ms with
  | nil => intro _; rfl
  | cons m t ih =>
      intro h
      have hm := h m (List.mem_cons_self m t)
      have ht := fun x hx => h x (List.mem_cons_of_mem m hx)
      rw [List.mapM_cons, dependence_hit_eq s gid m c0 c1 hm.1 hm.2, ih ht,
        List.map_cons]
      rfl

/-- Sum of a 0/1 indicator list equals the count of satisfied positions. -/
theorem sum_indicator_eq_countP {α : Type} (p : α → Prop) [DecidablePred p] :
    ∀ l : List α,
      (l.map (fun a => if p a then (1 : ℚ) else 0)).sum =
        (l.countP (fun a => decide (p a)) : ℚ) := by
  intro l
  induction l with
  | nil => simp
  | cons a t ih =>
      by_cases h : p a
      · simp [h, List.countP_cons, ih]
        exact add_comm 1 _
      · simp [h, List.countP_cons, ih]

/-- C9: column dependence probability is symmetric in the two columns for
every generator, store, and model-number set. -/
theorem column_dependence_probability_symmetric (s : LoomStore)
    (generator_id : Int) (modelnos : Option (List Int)) (colno0 colno1 : Int) :
    column_dependence_probability s generator_id modelnos colno0 colno1 =
      column_dependence_probability s generator_id modelnos colno1 colno0 := by
  unfold column_dependence_probability
  have hfun : (fun m => dependence_hit s generator_id m colno0 colno1) =
      (fun m => dependence_hit s generator_id m colno1 colno0) := by
    funext m
    exact dependence_hit_symm s generator_id m colno0 colno1
  rw [hfun]

/-- C2: for every generator, resolved model-number set (`none` meaning all
trained models) and column pair, the dependence probability is the mean over
the chosen models of the indicator that the two columns share a kind id, and
it lies in `[0, 1]`. -/
theorem column_dependence_probability_is_mean (s : LoomStore)
    (generator_id : Int) (modelnos : Option (List Int)) (colno0 colno1 : Int)
    (ms : List Int)
    (hms : resolve_modelnos s generator_id modelnos = some ms)
    (hne : ms ≠ [])
    (hk : ∀ m ∈ ms, (get_kind_id s generator_id m colno0).isSome ∧
        (get_kind_id s generator_id m colno1).isSome) :
    ∃ r : ℚ,
      column_dependence_probability s generator_id modelnos colno0 colno1
          = some r
      ∧ r = (ms.countP (fun m => decide (get_kind_id s generator_id m colno0
              = get_kind_id s generator_id m colno1)) : ℚ) / (ms.length : ℚ)
      ∧ 0 ≤ r ∧ r ≤ 1 := by
  have hlen : ms.length ≠ 0 := fun h => hne (List.length_eq_zero.mp h)
  have hmap := mapM_dependence_hit s generator_id colno0 colno1 ms hk
  refine ⟨(ms.countP (fun m => decide (get_kind_id s generator_id m colno0
      = get_kind_id s generator_id m colno1)) : ℚ) / (ms.length : ℚ),
    ?_, rfl, ?_, ?_⟩
  · unfold column_dependence_probability
    rw [hms]
    show (ms.mapM (fun m => dependence_hit s generator_id m colno0 colno1)).bind
        _ = _
    rw [hmap]
    have hlen2 : (ms.map (fun m =>
        if get_kind_id s generator_id m colno0
          = get_kind_id s generator_id m colno1 then (1 : ℚ) else 0)).length
        = ms.length := List.length_map _ _
    show (if _ = 0 then none else _) = _
    rw [hlen2, if_neg hlen]
    rw [sum_indicator_eq_countP
      (fun m => get_kind_id s generator_id m colno0
        = get_kind_id s generator_id m colno1) ms]
    rfl
  · apply div_nonneg
    · exact_mod_cast Nat.zero_le _
    · exact_mod_cast Nat.zero_le _
  · have hpos : (0 : ℚ) < (ms.length : ℚ) := by
      exact_mod_cast Nat.pos_of_ne_zero hlen
    rw [div_le_one hpos]
    exact_mod_cast List.countP_le_length _

/-- Witness for C2 at a concrete store with 3 trained models in which the two
columns are co-kinded in exactly 2: every hypothesis holds and the dependence
probability evaluates to `2/3`. -/
theorem column_dependence_probability_is_mean_witness :
    (resolve_modelnos c2_store 1 none = some [0, 1, 2])
  ∧ (([0, 1, 2] : List Int) ≠ [])
  ∧ (∀ m ∈ ([0, 1, 2] : List Int), (get_kind_id c2_store 1 m 0).isSome ∧
      (get_kind_id c2_store 1 m 1).isSome)
  ∧ (∃ r : ℚ,
      column_dependence_probability c2_store 1 none 0 1 = some r
      ∧ r = (([0, 1, 2] : List Int).countP (fun m =>
              decide (get_kind_id c2_store 1 m 0 = get_kind_id c2_store 1 m 1))
            : ℚ) / (([0, 1, 2] : List Int).length : ℚ)
      ∧ 0 ≤ r ∧ r ≤ 1)
  ∧ column_dependence_probability c2_store 1 none 0 1 = some (2 / 3 : ℚ) := by
  have h := column_dependence_probability_is_mean c2_store 1 none 0 1 [0, 1, 2]
    (by decide) (by decide) (by decide)
  refine ⟨by decide, by decide, by decide, h, ?_⟩
  obtain ⟨r, hr, hval, _, _⟩ := h
  rw [hr]
  have hcount : (([0, 1, 2] : List Int).countP (fun m =>
      decide (get_kind_id c2_store 1 m 0 = get_kind_id c2_store 1 m 1))) = 2 := by
    decide
  rw [hval, hcount]
  norm_num

/-- `string_encoding_rows` succeeds when every encoding name resolves to a
host column number. -/
theorem string_encoding_rows_isSome (generator_id : Int)
    (tcn : String → Option Int) :
    ∀ encoding : List EncodingColumn,
      (∀ c ∈ encoding, (tcn c.name).isSome) →
      (string_encoding_rows generator_id tcn encoding).isSome := by
  intro encoding
  induction encoding with
  | nil => intro _; rfl
  | cons col rest ih =>
      intro h
      have hrest := ih (fun c hc => h c (List.mem_cons_of_mem col hc))
      obtain ⟨tail, htail⟩ := Option.isSome_iff_exists.mp hrest
      unfold string_encoding_rows
      cases hs : col.symbols with
      | none => rw [htail]; rfl
      | some syms =>
          obtain ⟨colno, hcn⟩ := Option.isSome_iff_exists.mp
            (h col (List.mem_cons_self col rest))
          rw [hcn, htail]
          rfl

/-- When every encoding name resolves, `order_rows_from` succeeds and
produces `order_rows_val`. -/
theorem order_rows_from_eq_val (generator_id : Int) (tcn : String → Option Int) :
    ∀ (l : List EncodingColumn) (i : Nat),
      (∀ c ∈ l, (tcn c.name).isSome) →
      order_rows_from generator_id tcn l i =
        some (order_rows_val generator_id tcn l i) := by
  intro l
  induction l with
  | nil => intro i _; rfl
  | cons col rest ih =>
      intro i h
      obtain ⟨colno, hcn⟩ := Option.isSome_iff_exists.mp
        (h col (List.mem_cons_self col rest))
      unfold order_rows_from order_rows_val
      rw [hcn, ih (i + 1) (fun c hc => h c (List.mem_cons_of_mem col hc))]
      simp [hcn]

/-- The ranks produced by the ordering loop starting at index `i` are exactly
`i, i+1, ...` in order. -/
theorem order_rows_val_map_rank (generator_id : Int) (tcn : String → Option Int) :
    ∀ (l : List EncodingColumn) (i : Nat),
      (order_rows_val generator_id tcn l i).map (fun r => r.rank) =
        (List.range' i l.length).map Int.ofNat := by
  intro l
  induction l with
  | nil => intro i; rfl
  | cons col rest ih =>
      intro i
      rw [order_rows_val, List.map_cons, List.length_cons, List.range'_succ,
        List.map_cons, ih (i + 1)]

/-- The column ids produced by the ordering loop, in order. -/
theorem order_rows_val_map_colno (generator_id : Int)
    (tcn : String → Option Int) :
    ∀ (l : List EncodingColumn) (i : Nat),
      (order_rows_val generator_id tcn l i).map (fun r => r.colno) =
        l.map (fun c => (tcn c.name).getD 0) := by
  intro l
  induction l with
  | nil => intro i; rfl
  | cons col rest ih =>
      intro i
      rw [order_rows_val, List.map_cons, List.map_cons, ih (i + 1)]

/-- Every ordering row produced by the loop belongs to the generator. -/
theorem order_rows_val_gid (generator_id : Int) (tcn : String → Option Int) :
    ∀ (l : List EncodingColumn) (i : Nat),
      ∀ r ∈ order_rows_val generator_id tcn l i, r.generator_id = generator_id := by
  intro l
  induction l with
  | nil => intro i r hr; cases hr
  | cons col rest ih =>
      intro i r hr
      rw [order_rows_val] at hr
      rcases List.mem_cons.mp hr with h | h
      · rw [h]
      · exact ih (i + 1) r h

/-- The ordering rows produced by the loop are already sorted by rank. -/
theorem order_rows_val_sorted (generator_id : Int) (tcn : String → Option Int)
    (l : List EncodingColumn) (i : Nat) :
    List.Sorted (fun a b : ColumnOrderingRow => a.rank ≤ b.rank)
      (order_rows_val generator_id tcn l i) := by
  have h1 : List.Pairwise (fun a b : Int => a ≤ b)
      ((order_rows_val generator_id tcn l i).map (fun r => r.rank)) := by
    rw [order_rows_val_map_rank]
    refine List.pairwise_map.mpr ?_
    refine (List.pairwise_lt_range' i l.length 1 (by norm_num)).imp ?_
    intro a b hab
    exact Int.ofNat_le.mpr (Nat.le_of_lt hab)
  exact List.pairwise_map.mp h1

/-- Distinct names with an injective name resolution yield distinct column
ids. -/
theorem tcn_colnos_nodup (tcn : String → Option Int) :
    ∀ l : List EncodingColumn,
      (∀ c ∈ l, (tcn c.name).isSome) →
      ((l.map (fun c => c.name)).Nodup) →
      (∀ c1 ∈ l, ∀ c2 ∈ l, tcn c1.name = tcn c2.name → c1.name = c2.name) →
      (l.map (fun c => (tcn c.name).getD 0)).Nodup := by
  intro l
  induction l with
  | nil => intro _ _ _; simp
  | cons col rest ih =>
      intro hres hnames hinj
      rw [List.map_cons, List.nodup_cons]
      rw [List.map_cons, List.nodup_cons] at hnames
      constructor
      · intro hmem
        obtain ⟨c2, hc2, heq⟩ := List.mem_map.mp hmem
        obtain ⟨v1, hv1⟩ := Option.isSome_iff_exists.mp
          (hres col (List.mem_cons_self col rest))
        obtain ⟨v2, hv2⟩ := Option.isSome_iff_exists.mp
          (hres c2 (List.mem_cons_of_mem col hc2))
        rw [hv1, hv2] at heq
        simp only [Option.getD_some] at heq
        have htcneq : tcn c2.name = tcn col.name := by rw [hv1, hv2, heq]
        have hname := hinj c2 (List.mem_cons_of_mem col hc2) col
          (List.mem_cons_self col rest) htcneq
        exact hnames.1 (List.mem_map.mpr ⟨c2, hc2, hname⟩)
      · exact ih (fun c hc => hres c (List.mem_cons_of_mem col hc)) hnames.2
          (fun c1 h1 c2 h2 => hinj c1 (List.mem_cons_of_mem col h1) c2
            (List.mem_cons_of_mem col h2))

/-- C8: after ingestion stores the encoding for a generator with no prior
ordering rows, the Column Order is a bijection between host column ids and
ranks: the generator's ordering rows carry the contiguous rank range
`0..N-1` in order (`N` the number of encoding entries, one per population
variable), the column ids carry each host column id exactly once (no
duplicates), any duplicate-free list with the same members as the stored
column ids — such as the population's variable list — has length exactly `N`,
and the full-order lookup `_get_order` returns the column ids sorted by
ascending rank. -/
theorem store_encoding_info_column_order_bijection (s : LoomStore)
    (generator_id : Int) (encoding : List EncodingColumn)
    (tcn : String → Option Int)
    (hres : ∀ c ∈ encoding, (tcn c.name).isSome)
    (hnames : (encoding.map (fun c => c.name)).Nodup)
    (hinj : ∀ c1 ∈ encoding, ∀ c2 ∈ encoding,
      tcn c1.name = tcn c2.name → c1.name = c2.name)
    (hfresh : ∀ r ∈ s.column_ordering, r.generator_id ≠ generator_id) :
    ∃ s2, store_encoding_info s generator_id encoding tcn = some s2
      ∧ ((s2.column_ordering.filter
            (fun r => r.generator_id == generator_id)).map (fun r => r.rank)
          = (List.range encoding.length).map Int.ofNat)
      ∧ ((s2.column_ordering.filter
            (fun r => r.generator_id == generator_id)).map (fun r => r.colno)
          = encoding.map (fun c => (tcn c.name).getD 0))
      ∧ (encoding.map (fun c => (tcn c.name).getD 0)).Nodup
      ∧ get_order s2 generator_id = encoding.map (fun c => (tcn c.name).getD 0)
      ∧ (∀ pop : List Int, pop.Nodup →
          (∀ c, c ∈ pop ↔ c ∈ encoding.map (fun c2 => (tcn c2.name).getD 0)) →
          pop.length = encoding.length) := by
  obtain ⟨enc, henc⟩ := Option.isSome_iff_exists.mp
    (string_encoding_rows_isSome generator_id tcn encoding hres)
  have hord := order_rows_from_eq_val generator_id tcn encoding 0 hres
  refine ⟨{ s with
      string_encoding := s.string_encoding ++ enc,
      column_ordering := s.column_ordering ++
        order_rows_val generator_id tcn encoding 0 }, ?_, ?_, ?_, ?_, ?_, ?_⟩
  · unfold store_encoding_info
    rw [henc, hord]
    rfl
  · show ((s.column_ordering ++ order_rows_val generator_id tcn encoding 0).filter
        (fun r => r.generator_id == generator_id)).map (fun r => r.rank) = _
    rw [List.filter_append,
      List.filter_eq_nil_iff.mpr (fun r hr => by simp [hfresh r hr]),
      List.filter_eq_self.mpr (fun r hr => by
        simp [order_rows_val_gid generator_id tcn encoding 0 r hr]),
      List.nil_append, order_rows_val_map_rank, List.range_eq_range']
  · show ((s.column_ordering ++ order_rows_val generator_id tcn encoding 0).filter
        (fun r => r.generator_id == generator_id)).map (fun r => r.colno) = _
    rw [List.filter_append,
      List.filter_eq_nil_iff.mpr (fun r hr => by simp [hfresh r hr]),
      List.filter_eq_self.mpr (fun r hr => by
        simp [order_rows_val_gid generator_id tcn encoding 0 r hr]),
      List.nil_append, order_rows_val_map_colno]
  · exact tcn_colnos_nodup tcn encoding hres hnames hinj
  · show ((((s.column_ordering ++ order_rows_val generator_id tcn encoding 0).filter
        (fun r => r.generator_id == generator_id)).insertionSort
          (fun a b => a.rank ≤ b.rank)).map (fun r => r.colno)) = _
    rw [List.filter_append,
      List.filter_eq_nil_iff.mpr (fun r hr => by simp [hfresh r hr]),
      List.filter_eq_self.mpr (fun r hr => by
        simp [order_rows_val_gid generator_id tcn encoding 0 r hr]),
      List.nil_append,
      List.Sorted.insertionSort_eq (order_rows_val_sorted generator_id tcn encoding 0),
      order_rows_val_map_colno]
  · intro pop hnd hmem
    have hcn := tcn_colnos_nodup tcn encoding hres hnames hinj
    have hperm := List.perm_of_nodup_nodup_toFinset_eq hnd hcn
      (by ext a; simp only [List.mem_toFinset]; exact hmem a)
    rw [hperm.length_eq, List.length_map]

/-- Witness for C8 at a concrete two-column encoding: all hypotheses hold and
the full-order lookup returns the two host column ids in rank order. -/
theorem store_encoding_info_column_order_bijection_witness :
    (∀ c ∈ c8_encoding, (c8_tcn c.name).isSome)
  ∧ ((c8_encoding.map (fun c => c.name)).Nodup)
  ∧ (∀ c1 ∈ c8_encoding, ∀ c2 ∈ c8_encoding,
      c8_tcn c1.name = c8_tcn c2.name → c1.name = c2.name)
  ∧ (∀ r ∈ c8_store.column_ordering, r.generator_id ≠ 1)
  ∧ (∃ s2, store_encoding_info c8_store 1 c8_encoding c8_tcn = some s2
      ∧ get_order s2 1 = [10, 20]) := by
  obtain ⟨s2, h1, _, _, _, h5, _⟩ :=
    store_encoding_info_column_order_bijection c8_store 1 c8_encoding c8_tcn
      (by decide) (by decide) (by decide) (by decide)
  refine ⟨by decide, by decide, by decide, by decide, s2, h1, ?_⟩
  rw [h5]
  decide

/-- The per-model delete loop of `drop_models` leaves the four non-partition
tables unchanged. -/
theorem foldl_delete_other (gid : Int) :
    ∀ (ms : List Int) (s : LoomStore),
      ((ms.foldl (fun acc m => delete_model_rows acc gid m) s).generator_tbl
        = s.generator_tbl)
    ∧ ((ms.foldl (fun acc m => delete_model_rows acc gid m) s).model_info
        = s.model_info)
    ∧ ((ms.foldl (fun acc m => delete_model_rows acc gid m) s).string_encoding
        = s.string_encoding)
    ∧ ((ms.foldl (fun acc m => delete_model_rows acc gid m) s).column_ordering
        = s.column_ordering) := by
  intro ms
  induction ms with
  | nil => intro s; exact ⟨rfl, rfl, rfl, rfl⟩
  | cons m t ih =>
      intro s
      rw [List.foldl_cons]
      exact ih (delete_model_rows s gid m)

/-- The per-model delete loop removes from the column-kind table exactly the
rows of the generator whose model number is listed. -/
theorem foldl_delete_ckp (gid : Int) :
    ∀ (ms : List Int) (s : LoomStore),
      (ms.foldl (fun acc m => delete_model_rows acc gid m)
          s).column_kind_partition
        = s.column_kind_partition.filter
            (fun r => !(r.generator_id == gid && decide (r.modelno ∈ ms))) := by
  intro ms
  induction ms with
  | nil =>
      intro s
      symm
      apply List.filter_eq_self.mpr
      intro r _
      simp
  | cons m t ih =>
      intro s
      rw [List.foldl_cons, ih (delete_model_rows s gid m)]
      show (s.column_kind_partition.filter
          (fun r => !(r.generator_id == gid && r.modelno == m))).filter
        (fun r => !(r.generator_id == gid && decide (r.modelno ∈ t))) = _
      rw [List.filter_filter]
      apply List.filter_congr
      intro r _
      by_cases hg : r.generator_id = gid
      · by_cases hm : r.modelno = m
        · simp [hg, hm, List.mem_cons]
        · by_cases ht : r.modelno ∈ t
          · simp [hg, hm, ht, List.mem_cons]
          · simp [hg, hm, ht, List.mem_cons]
      · have hb : (r.generator_id == gid) = false := by simp [hg]
        simp [hb]

/-- The per-model delete loop removes from the row-kind table exactly the
rows of the generator whose model number is listed. -/
theorem foldl_delete_rkp (gid : Int) :
    ∀ (ms : List Int) (s : LoomStore),
      (ms.foldl (fun acc m => delete_model_rows acc gid m) s).row_kind_partition
        = s.row_kind_partition.filter
            (fun r => !(r.generator_id == gid && decide (r.modelno ∈ ms))) := by
  intro ms
  induction ms with
  | nil =>
      intro s
      symm
      apply List.filter_eq_self.mpr
      intro r _
      simp
  | cons m t ih =>
      intro s
      rw [List.foldl_cons, ih (delete_model_rows s gid m)]
      show (s.row_kind_partition.filter
          (fun r => !(r.generator_id == gid && r.modelno == m))).filter
        (fun r => !(r.generator_id == gid && decide (r.modelno ∈ t))) = _
      rw [List.filter_filter]
      apply List.filter_congr
      intro r _
      by_cases hg : r.generator_id = gid
      · by_cases hm : r.modelno = m
        · simp [hg, hm, List.mem_cons]
        · by_cases ht : r.modelno ∈ t
          · simp [hg, hm, ht, List.mem_cons]
          · simp [hg, hm, ht, List.mem_cons]
      · have hb : (r.generator_id == gid) = false := by simp [hg]
        simp [hb]

/-- `drop_models` deletes from the column-kind table exactly the rows matched
by `modelnos_match`. -/
theorem drop_models_store_ckp (s : LoomStore) (gid : Int)
    (mns : Option (List Int)) :
    (drop_models_store s gid mns).column_kind_partition =
      s.column_kind_partition.filter
        (fun r => !(modelnos_match gid mns r.generator_id r.modelno)) := by
  cases mns with
  | none =>
      show s.column_kind_partition.filter (fun r => !(r.generator_id == gid)) = _
      apply List.filter_congr
      intro r _
      simp [modelnos_match]
  | some ms =>
      show (ms.foldl (fun acc m => delete_model_rows acc gid m)
          s).column_kind_partition = _
      rw [foldl_delete_ckp gid ms s]
      apply List.filter_congr
      intro r _
      simp [modelnos_match]

/-- `drop_models` deletes from the row-kind table exactly the rows matched by
`modelnos_match`. -/
theorem drop_models_store_rkp (s : LoomStore) (gid : Int)
    (mns : Option (List Int)) :
    (drop_models_store s gid mns).row_kind_partition =
      s.row_kind_partition.filter
        (fun r => !(modelnos_match gid mns r.generator_id r.modelno)) := by
  cases mns with
  | none =>
      show s.row_kind_partition.filter (fun r => !(r.generator_id == gid)) = _
      apply List.filter_congr
      intro r _
      simp [modelnos_match]
  | some ms =>
      show (ms.foldl (fun acc m => delete_model_rows acc gid m)
          s).row_kind_partition = _
      rw [foldl_delete_rkp gid ms s]
      apply List.filter_congr
      intro r _
      simp [modelnos_match]

/-- `drop_models` leaves the four non-partition tables unchanged. -/
theorem drop_models_store_other (s : LoomStore) (gid : Int)
    (mns : Option (List Int)) :
    ((drop_models_store s gid mns).generator_tbl = s.generator_tbl)
  ∧ ((drop_models_store s gid mns).model_info = s.model_info)
  ∧ ((drop_models_store s gid mns).string_encoding = s.string_encoding)
  ∧ ((drop_models_store s gid mns).column_ordering = s.column_ordering) := by
  cases mns with
  | none => exact ⟨rfl, rfl, rfl, rfl⟩
  | some ms => exact foldl_delete_other gid ms s

/-- A member of the result of a successful `Option`-valued `mapM` comes from
some member of the input list. -/
theorem mem_of_mapM_option {α β : Type} (f : α → Option β) :
    ∀ (l : List α) (bs : List β), l.mapM f = some bs →
      ∀ b ∈ bs, ∃ a ∈ l, f a = some b := by
  intro l
  induction l with
  | nil =>
      intro bs h b hb
      rw [List.mapM_nil] at h
      cases h
      cases hb
  | cons a t ih =>
      intro bs h b hb
      rw [List.mapM_cons] at h
      cases hfa : f a with
      | none => rw [hfa] at h; cases h
      | some b0 =>
          rw [hfa] at h
          cases hmt : t.mapM f with
          | none => rw [hmt] at h; cases h
          | some bs2 =>
              rw [hmt] at h
              have hbs : b0 :: bs2 = bs := by
                cases h
                rfl
              rw [← hbs] at hb
              rcases List.mem_cons.mp hb with hb2 | hb2
              · exact ⟨a, List.mem_cons_self a t, hb2 ▸ hfa⟩
              · obtain ⟨a2, ha2, hfa2⟩ := ih bs2 hmt b hb2
                exact ⟨a2, List.mem_cons_of_mem a ha2, hfa2⟩

/-- Fields of a successfully generated column-kind row. -/
theorem ckp_row_for_fields (s : LoomStore) (gid m colno : Int)
    (art : ModelArtifact) (r : ColumnKindRow)
    (h : ckp_row_for s gid m colno art = some r) :
    r.generator_id = gid ∧ r.modelno = m ∧ r.colno = colno := by
  unfold ckp_row_for at h
  cases h1 : get_loom_rank s gid colno with
  | none => rw [h1] at h; cases h
  | some rank =>
      rw [h1] at h
      have h' : (art.column_partition.lookup rank).bind
          (fun kind => some (⟨gid, m, colno, kind⟩ : ColumnKindRow)) = some r := h
      cases h2 : art.column_partition.lookup rank with
      | none => rw [h2] at h'; cases h'
      | some kind =>
          rw [h2] at h'
          have h3 : (⟨gid, m, colno, kind⟩ : ColumnKindRow) = r := by
            cases h'
            rfl
          rw [← h3]
          exact ⟨rfl, rfl, rfl⟩

/-- Per-column generation only reads the column-ordering table of the store. -/
theorem ckp_row_for_congr (s t : LoomStore)
    (h : s.column_ordering = t.column_ordering) (gid m colno : Int)
    (art : ModelArtifact) :
    ckp_row_for s gid m colno art = ckp_row_for t gid m colno art := by
  unfold ckp_row_for
  rw [show get_loom_rank s gid colno = get_loom_rank t gid colno from by
    unfold get_loom_rank; rw [h]]

/-- Per-model generation only reads the column-ordering table of the store. -/
theorem gen_ckp_rows_congr (s t : LoomStore)
    (h : s.column_ordering = t.column_ordering) (gid m : Int)
    (art : ModelArtifact) (colnos : List Int) :
    gen_ckp_rows s gid m art colnos = gen_ckp_rows t gid m art colnos := by
  unfold gen_ckp_rows
  rw [show (fun colno => ckp_row_for s gid m colno art)
      = (fun colno => ckp_row_for t gid m colno art) from
    funext (fun colno => ckp_row_for_congr s t h gid m colno art)]

/-- `resolve_modelnos` only reads the model-info table of the store. -/
theorem resolve_modelnos_congr (s t : LoomStore)
    (h : s.model_info = t.model_info) (gid : Int)
    (mns : Option (List Int)) :
    resolve_modelnos s gid mns = resolve_modelnos t gid mns := by
  cases mns with
  | none =>
      unfold resolve_modelnos get_num_models
      rw [h]
  | some ms => rfl

/-- Every generated column-kind row of a model carries the generator id and
the model number. -/
theorem gen_ckp_rows_fields (s : LoomStore) (gid m : Int) (art : ModelArtifact)
    (colnos : List Int) (rows : List ColumnKindRow)
    (h : gen_ckp_rows s gid m art colnos = some rows) :
    ∀ r ∈ rows, r.generator_id = gid ∧ r.modelno = m := by
  intro r hr
  obtain ⟨colno, _, hf⟩ := mem_of_mapM_option _ colnos rows h r hr
  have := ckp_row_for_fields s gid m colno art r hf
  exact ⟨this.1, this.2.1⟩

/-- The generated column-kind rows list one row per population variable, in
order. -/
theorem gen_ckp_rows_map_colno (s : LoomStore) (gid m : Int)
    (art : ModelArtifact) :
    ∀ (colnos : List Int) (rows : List ColumnKindRow),
      gen_ckp_rows s gid m art colnos = some rows →
      rows.map (fun r => r.colno) = colnos := by
  intro colnos
  induction colnos with
  | nil =>
      intro rows h
      unfold gen_ckp_rows at h
      rw [List.mapM_nil] at h
      cases h
      rfl
  | cons c t ih =>
      intro rows h
      unfold gen_ckp_rows at h
      rw [List.mapM_cons] at h
      cases hfa : ckp_row_for s gid m c art with
      | none => rw [hfa] at h; cases h
      | some r0 =>
          rw [hfa] at h
          cases hmt : t.mapM (fun colno => ckp_row_for s gid m colno art) with
          | none => rw [hmt] at h; cases h
          | some rows2 =>
              rw [hmt] at h
              have hrows : r0 :: rows2 = rows := by
                cases h
                rfl
              have hcol : r0.colno = c :=
                (ckp_row_for_fields s gid m c art r0 hfa).2.2
              rw [← hrows, List.map_cons, hcol, ih rows2 hmt]

/-- Distinct population variables generate distinct column-kind rows. -/
theorem gen_ckp_rows_nodup (s : LoomStore) (gid m : Int) (art : ModelArtifact)
    (colnos : List Int) (rows : List ColumnKindRow)
    (h : gen_ckp_rows s gid m art colnos = some rows)
    (hcol : colnos.Nodup) : rows.Nodup := by
  apply List.Nodup.of_map (fun r : ColumnKindRow => r.colno)
  rw [gen_ckp_rows_map_colno s gid m art colnos rows h]
  exact hcol

/-- Every generated row-kind row of a model carries the generator id and the
model number. -/
theorem gen_rkp_rows_fields (gid m : Int) (art : ModelArtifact) :
    ∀ r ∈ gen_rkp_rows gid m art, r.generator_id = gid ∧ r.modelno = m := by
  intro r hr
  obtain ⟨kp, _, hr2⟩ := List.mem_flatMap.mp hr
  obtain ⟨p, _, hp⟩ := List.mem_map.mp hr2
  rw [← hp]
  exact ⟨rfl, rfl⟩

/-- With duplicate-free kind ids in the artifact, the generated row-kind rows
contain no duplicates. -/
theorem gen_rkp_rows_nodup (gid m : Int) (art : ModelArtifact)
    (hk : (art.row_partition.map Prod.fst).Nodup) :
    (gen_rkp_rows gid m art).Nodup := by
  unfold gen_rkp_rows
  rw [List.nodup_flatMap]
  constructor
  · intro kp _
    apply List.Nodup.of_map (fun r : RowKindRow => r.rowid)
    rw [List.map_map]
    rw [show ((fun r : RowKindRow => r.rowid) ∘ (fun p : Nat × Int =>
        (⟨gid, m, Int.ofNat p.1 + 1, kp.1, p.2⟩ : RowKindRow)))
      = (fun n : Nat => Int.ofNat n + 1) ∘ Prod.fst from rfl]
    rw [← List.map_map, List.enum_map_fst]
    refine List.Nodup.map ?_ (List.nodup_range _)
    intro a b hab
    exact Int.ofNat.inj (add_right_cancel hab)
  · have hpw : List.Pairwise (fun a b : Int × List Int => a.1 ≠ b.1)
        art.row_partition := List.pairwise_map.mp hk
    refine hpw.imp ?_
    intro a b hab
    show List.Disjoint _ _
    rw [List.disjoint_left]
    intro r hra hrb
    obtain ⟨p1, _, hp1⟩ := List.mem_map.mp hra
    obtain ⟨p2, _, hp2⟩ := List.mem_map.mp hrb
    have h1 : r.kind_id = a.1 := by rw [← hp1]
    have h2 : r.kind_id = b.1 := by rw [← hp2]
    exact hab (h1 ▸ h2)

/-- Characterization of the `_store_kind_partition` model loop: when every
model's column-kind generation succeeds on the accumulator, the loop succeeds
and appends the generated rows of all models, in model order, to the two
partition tables, leaving the other four tables unchanged. -/
theorem foldlM_store_kind_partition (gid : Int) (arts : Int → ModelArtifact)
    (colnos : List Int) :
    ∀ (ms : List Int) (acc : LoomStore),
      (∀ m ∈ ms, (gen_ckp_rows acc gid m (arts m) colnos).isSome) →
      ∃ s2, ms.foldlM (fun a m =>
          store_kind_partition_model a gid m (arts m) colnos) acc = some s2
        ∧ s2.column_kind_partition = acc.column_kind_partition ++
            ms.flatMap (fun m => (gen_ckp_rows acc gid m (arts m) colnos).getD [])
        ∧ s2.row_kind_partition = acc.row_kind_partition ++
            ms.flatMap (fun m => gen_rkp_rows gid m (arts m))
        ∧ s2.column_ordering = acc.column_ordering
        ∧ s2.model_info = acc.model_info
        ∧ s2.generator_tbl = acc.generator_tbl
        ∧ s2.string_encoding = acc.string_encoding := by
  intro ms
  induction ms with
  | nil =>
      intro acc _
      exact ⟨acc, rfl, by simp, by simp, rfl, rfl, rfl, rfl⟩
  | cons m t ih =>
      intro acc h
      obtain ⟨ckp, hckp⟩ := Option.isSome_iff_exists.mp
        (h m (List.mem_cons_self m t))
      have hstep : store_kind_partition_model acc gid m (arts m) colnos =
          some { acc with
            column_kind_partition := acc.column_kind_partition ++ ckp,
            row_kind_partition :=
              acc.row_kind_partition ++ gen_rkp_rows gid m (arts m) } := by
        unfold store_kind_partition_model
        rw [hckp]
        rfl
      have hco : ({ acc with
          column_kind_partition := acc.column_kind_partition ++ ckp,
          row_kind_partition :=
            acc.row_kind_partition ++ gen_rkp_rows gid m (arts m) }
            : LoomStore).column_ordering = acc.column_ordering := rfl
      have ht : ∀ m2 ∈ t, (gen_ckp_rows { acc with
          column_kind_partition := acc.column_kind_partition ++ ckp,
          row_kind_partition :=
            acc.row_kind_partition ++ gen_rkp_rows gid m (arts m) }
          gid m2 (arts m2) colnos).isSome := by
        intro m2 hm2
        rw [gen_ckp_rows_congr _ acc hco gid m2 (arts m2) colnos]
        exact h m2 (List.mem_cons_of_mem m hm2)
      obtain ⟨s2, hfold, h1, h2, h3, h4, h5, h6⟩ := ih _ ht
      have hgen : (fun m2 =>
          (gen_ckp_rows { acc with
            column_kind_partition := acc.column_kind_partition ++ ckp,
            row_kind_partition :=
              acc.row_kind_partition ++ gen_rkp_rows gid m (arts m) }
            gid m2 (arts m2) colnos).getD [])
          = (fun m2 => (gen_ckp_rows acc gid m2 (arts m2) colnos).getD []) := by
        funext m2
        rw [gen_ckp_rows_congr _ acc hco gid m2 (arts m2) colnos]
      refine ⟨s2, ?_, ?_, ?_, ?_, ?_, ?_, ?_⟩
      · rw [List.foldlM_cons, hstep]
        exact hfold
      · rw [h1, hgen]
        show (acc.column_kind_partition ++ ckp) ++ _ = _
        rw [List.flatMap_cons, hckp]
        show _ = acc.column_kind_partition ++ (ckp ++ _)
        rw [List.append_assoc]
      · rw [h2]
        show (acc.row_kind_partition ++ gen_rkp_rows gid m (arts m)) ++ _ = _
        rw [List.flatMap_cons, List.append_assoc]
      · exact h3
      · exact h4
      · exact h5
      · exact h6

/-- Full characterization of one extraction run: the partition tables hold
first the surviving rows (those of other generators or unselected models) and
then the freshly generated rows of the selected models in order; the other
four tables are untouched. -/
theorem extraction_run_spec (s : LoomStore) (gid : Int)
    (mns : Option (List Int)) (arts : Int → ModelArtifact) (colnos : List Int)
    (ms : List Int)
    (hms : resolve_modelnos s gid mns = some ms)
    (hg : ∀ m ∈ ms, (gen_ckp_rows s gid m (arts m) colnos).isSome) :
    ∃ s1, extraction_run s gid mns arts colnos = some s1
      ∧ s1.column_kind_partition =
          s.column_kind_partition.filter
            (fun r => !(modelnos_match gid mns r.generator_id r.modelno)) ++
          ms.flatMap (fun m => (gen_ckp_rows s gid m (arts m) colnos).getD [])
      ∧ s1.row_kind_partition =
          s.row_kind_partition.filter
            (fun r => !(modelnos_match gid mns r.generator_id r.modelno)) ++
          ms.flatMap (fun m => gen_rkp_rows gid m (arts m))
      ∧ s1.column_ordering = s.column_ordering
      ∧ s1.model_info = s.model_info
      ∧ s1.generator_tbl = s.generator_tbl
      ∧ s1.string_encoding = s.string_encoding := by
  have hother := drop_models_store_other s gid mns
  have hres2 : resolve_modelnos (drop_models_store s gid mns) gid mns = some ms := by
    rw [resolve_modelnos_congr (drop_models_store s gid mns) s hother.2.1 gid mns]
    exact hms
  have hg2 : ∀ m ∈ ms, (gen_ckp_rows (drop_models_store s gid mns) gid m
      (arts m) colnos).isSome := by
    intro m hm
    rw [gen_ckp_rows_congr (drop_models_store s gid mns) s hother.2.2.2
      gid m (arts m) colnos]
    exact hg m hm
  obtain ⟨s1, hfold, h1, h2, h3, h4, h5, h6⟩ :=
    foldlM_store_kind_partition gid arts colnos ms (drop_models_store s gid mns) hg2
  have hgen : (fun m => (gen_ckp_rows (drop_models_store s gid mns) gid m
        (arts m) colnos).getD [])
      = (fun m => (gen_ckp_rows s gid m (arts m) colnos).getD []) := by
    funext m
    rw [gen_ckp_rows_congr (drop_models_store s gid mns) s hother.2.2.2
      gid m (arts m) colnos]
  refine ⟨s1, ?_, ?_, ?_, ?_, ?_, ?_, ?_⟩
  · unfold extraction_run store_kind_partition
    rw [hres2]
    exact hfold
  · rw [h1, hgen, drop_models_store_ckp]
  · rw [h2, drop_models_store_rkp]
  · rw [h3]
    exact hother.2.2.2
  · rw [h4]
    exact hother.2.1
  · rw [h5]
    exact hother.1
  · rw [h6]
    exact hother.2.2.1

/-- Filtering twice with the same predicate filters once. -/
theorem filter_idem {α : Type} (p : α → Bool) (l : List α) :
    (l.filter p).filter p = l.filter p := by
  rw [List.filter_filter]
  apply List.filter_congr
  intro a _
  exact Bool.and_self (p a)

/-- A selected model's rows match the `drop_models` deletion predicate. -/
theorem modelnos_match_self (s : LoomStore) (gid : Int)
    (mns : Option (List Int)) (ms : List Int)
    (hms : resolve_modelnos s gid mns = some ms) (m : Int) (hm : m ∈ ms) :
    modelnos_match gid mns gid m = true := by
  cases mns with
  | none => simp [modelnos_match]
  | some ms2 =>
      have hms2 : ms2 = ms := by
        unfold resolve_modelnos at hms
        cases hms
        rfl
      rw [hms2]
      simp [modelnos_match, hm]

/-- Every row generated for the selected models carries the generator id and
one of the selected model numbers. -/
theorem mem_flatMap_gen_ckp (s : LoomStore) (gid : Int) (ms : List Int)
    (arts : Int → ModelArtifact) (colnos : List Int)
    (hg : ∀ m ∈ ms, (gen_ckp_rows s gid m (arts m) colnos).isSome) :
    ∀ r ∈ ms.flatMap (fun m => (gen_ckp_rows s gid m (arts m) colnos).getD []),
      ∃ m ∈ ms, r.generator_id = gid ∧ r.modelno = m := by
  intro r hr
  obtain ⟨m, hm, hr2⟩ := List.mem_flatMap.mp hr
  obtain ⟨rows, hrows⟩ := Option.isSome_iff_exists.mp (hg m hm)
  rw [hrows, Option.getD_some] at hr2
  exact ⟨m, hm, gen_ckp_rows_fields s gid m (arts m) colnos rows hrows r hr2⟩

/-- C7: partition extraction is idempotent.  For a fixed set of serialized
per-model artifacts, one extraction run (drop the selected models' partition
rows, regenerate from the artifacts with host row ids as dense 1-indexed
ordinal positions in artifact order) succeeds, a second identical run leaves
the store exactly as the first one did, and the resulting Column Kind
Partition and Row Kind Partition tables contain no duplicated rows. -/
theorem extraction_run_idempotent (s : LoomStore) (generator_id : Int)
    (modelnos : Option (List Int)) (arts : Int → ModelArtifact)
    (colnos : List Int) (ms : List Int)
    (hms : resolve_modelnos s generator_id modelnos = some ms)
    (hg : ∀ m ∈ ms, (gen_ckp_rows s generator_id m (arts m) colnos).isSome)
    (hmsnd : ms.Nodup) (hcol : colnos.Nodup)
    (hkinds : ∀ m : Int, ((arts m).row_partition.map Prod.fst).Nodup)
    (hck : s.column_kind_partition.Nodup)
    (hrk : s.row_kind_partition.Nodup) :
    ∃ s1, extraction_run s generator_id modelnos arts colnos = some s1
      ∧ extraction_run s1 generator_id modelnos arts colnos = some s1
      ∧ s1.column_kind_partition.Nodup
      ∧ s1.row_kind_partition.Nodup := by
  obtain ⟨s1, hrun, h1, h2, h3, h4, h5, h6⟩ :=
    extraction_run_spec s generator_id modelnos arts colnos ms hms hg
  have hms1 : resolve_modelnos s1 generator_id modelnos = some ms := by
    rw [resolve_modelnos_congr s1 s h4 generator_id modelnos]
    exact hms
  have hgcongr : ∀ m, gen_ckp_rows s1 generator_id m (arts m) colnos
      = gen_ckp_rows s generator_id m (arts m) colnos :=
    fun m => gen_ckp_rows_congr s1 s h3 generator_id m (arts m) colnos
  have hg1 : ∀ m ∈ ms, (gen_ckp_rows s1 generator_id m (arts m) colnos).isSome := by
    intro m hm
    rw [hgcongr m]
    exact hg m hm
  obtain ⟨s2, hrun2, g1, g2, g3, g4, g5, g6⟩ :=
    extraction_run_spec s1 generator_id modelnos arts colnos ms hms1 hg1
  have hgenfun : (fun m => (gen_ckp_rows s1 generator_id m (arts m) colnos).getD [])
      = (fun m => (gen_ckp_rows s generator_id m (arts m) colnos).getD []) := by
    funext m
    rw [hgcongr m]
  have hmatch_ckp : ∀ r ∈ ms.flatMap
      (fun m => (gen_ckp_rows s generator_id m (arts m) colnos).getD []),
      modelnos_match generator_id modelnos r.generator_id r.modelno = true := by
    intro r hr
    obtain ⟨m, hm, hgid, hmod⟩ :=
      mem_flatMap_gen_ckp s generator_id ms arts colnos hg r hr
    rw [hgid, hmod]
    exact modelnos_match_self s generator_id modelnos ms hms m hm
  have hmatch_rkp : ∀ r ∈ ms.flatMap
      (fun m => gen_rkp_rows generator_id m (arts m)),
      modelnos_match generator_id modelnos r.generator_id r.modelno = true := by
    intro r hr
    obtain ⟨m, hm, hr2⟩ := List.mem_flatMap.mp hr
    obtain ⟨hgid, hmod⟩ := gen_rkp_rows_fields generator_id m (arts m) r hr2
    rw [hgid, hmod]
    exact modelnos_match_self s generator_id modelnos ms hms m hm
  have hnil_ckp : (ms.flatMap
      (fun m => (gen_ckp_rows s generator_id m (arts m) colnos).getD [])).filter
      (fun r => !(modelnos_match generator_id modelnos r.generator_id r.modelno))
      = [] :=
    List.filter_eq_nil_iff.mpr (fun r hr => by simp [hmatch_ckp r hr])
  have hnil_rkp : (ms.flatMap
      (fun m => gen_rkp_rows generator_id m (arts m))).filter
      (fun r => !(modelnos_match generator_id modelnos r.generator_id r.modelno))
      = [] :=
    List.filter_eq_nil_iff.mpr (fun r hr => by simp [hmatch_rkp r hr])
  have hfilter_ckp : s1.column_kind_partition.filter
      (fun r => !(modelnos_match generator_id modelnos r.generator_id r.modelno))
      = s.column_kind_partition.filter
      (fun r => !(modelnos_match generator_id modelnos r.generator_id r.modelno)) := by
    rw [h1, List.filter_append, filter_idem, hnil_ckp, List.append_nil]
  have hfilter_rkp : s1.row_kind_partition.filter
      (fun r => !(modelnos_match generator_id modelnos r.generator_id r.modelno))
      = s.row_kind_partition.filter
      (fun r => !(modelnos_match generator_id modelnos r.generator_id r.modelno)) := by
    rw [h2, List.filter_append, filter_idem, hnil_rkp, List.append_nil]
  have hs2 : s2 = s1 := by
    apply LoomStore.ext
    · rw [g5, h5]
    · rw [g4, h4]
    · rw [g6, h6]
    · rw [g3, h3]
    · rw [g1, hgenfun, hfilter_ckp]
      exact h1.symm
    · rw [g2, hfilter_rkp]
      exact h2.symm
  refine ⟨s1, hrun, ?_, ?_, ?_⟩
  · rw [hrun2, hs2]
  · rw [h1, List.nodup_append]
    refine ⟨List.Nodup.filter _ hck, ?_, ?_⟩
    · rw [List.nodup_flatMap]
      constructor
      · intro m hm
        obtain ⟨rows, hrows⟩ := Option.isSome_iff_exists.mp (hg m hm)
        rw [hrows, Option.getD_some]
        exact gen_ckp_rows_nodup s generator_id m (arts m) colnos rows hrows hcol
      · refine List.Pairwise.imp_of_mem ?_ hmsnd
        intro a b ha hb hab
        show List.Disjoint _ _
        rw [List.disjoint_left]
        intro r hra hrb
        obtain ⟨rowsa, hrowsa⟩ := Option.isSome_iff_exists.mp (hg a ha)
        obtain ⟨rowsb, hrowsb⟩ := Option.isSome_iff_exists.mp (hg b hb)
        change r ∈ (gen_ckp_rows s generator_id a (arts a) colnos).getD [] at hra
        change r ∈ (gen_ckp_rows s generator_id b (arts b) colnos).getD [] at hrb
        rw [hrowsa, Option.getD_some] at hra
        rw [hrowsb, Option.getD_some] at hrb
        have hfa := gen_ckp_rows_fields s generator_id a (arts a) colnos rowsa
          hrowsa r hra
        have hfb := gen_ckp_rows_fields s generator_id b (arts b) colnos rowsb
          hrowsb r hrb
        exact hab (hfa.2 ▸ hfb.2)
    · rw [List.disjoint_left]
      intro r hrf hrg
      have hf := (List.mem_filter.mp hrf).2
      rw [hmatch_ckp r hrg] at hf
      cases hf
  · rw [h2, List.nodup_append]
    refine ⟨List.Nodup.filter _ hrk, ?_, ?_⟩
    · rw [List.nodup_flatMap]
      constructor
      · intro m _
        exact gen_rkp_rows_nodup generator_id m (arts m) (hkinds m)
      · refine List.Pairwise.imp_of_mem ?_ hmsnd
        intro a b _ _ hab
        show List.Disjoint _ _
        rw [List.disjoint_left]
        intro r hra hrb
        have hfa := gen_rkp_rows_fields generator_id a (arts a) r hra
        have hfb := gen_rkp_rows_fields generator_id b (arts b) r hrb
        exact hab (hfa.2 ▸ hfb.2)
    · rw [List.disjoint_left]
      intro r hrf hrg
      have hf := (List.mem_filter.mp hrf).2
      rw [hmatch_rkp r hrg] at hf
      cases hf

/-- Witness for C7 at a concrete store, artifact and model set: every
hypothesis holds at the concrete input, so one extraction run succeeds, a
second identical run is a no-op, and the resulting partition stores are
duplicate-free. -/
theorem extraction_run_idempotent_witness :
    (resolve_modelnos c7_store 1 (some [0]) = some [0])
  ∧ (∀ m ∈ ([0] : List Int),
      (gen_ckp_rows c7_store 1 m (c7_arts m) ([0, 1] : List Int)).isSome)
  ∧ (([0] : List Int).Nodup)
  ∧ (([0, 1] : List Int).Nodup)
  ∧ (∀ m : Int, ((c7_arts m).row_partition.map Prod.fst).Nodup)
  ∧ c7_store.column_kind_partition.Nodup
  ∧ c7_store.row_kind_partition.Nodup
  ∧ (∃ s1, extraction_run c7_store 1 (some [0]) c7_arts [0, 1] = some s1
      ∧ extraction_run s1 1 (some [0]) c7_arts [0, 1] = some s1
      ∧ s1.column_kind_partition.Nodup
      ∧ s1.row_kind_partition.Nodup) :=
  ⟨by decide, by decide, by decide, by decide, by intro m; simp only [c7_arts]; decide, by decide,
    by decide,
    extraction_run_idempotent c7_store 1 (some [0]) c7_arts [0, 1] [0]
      (by decide) (by decide) (by decide) (by decide) (by intro m; simp only [c7_arts]; decide)
      (by decide) (by decide)⟩

/-- `_impute_categorical` can never fail with the numsamples assertion. -/
theorem impute_categorical_ne_assertion (sample : List (List LVal))
    (numsamples : Int) :
    impute_categorical sample numsamples ≠ .error .assertionFailed := by
  intro h
  unfold impute_categorical at h
  cases hv : sample.mapM List.head? with
  | none => rw [hv] at h; cases h
  | some vals =>
      rw [hv] at h
      replace h : impute_categorical_vals vals numsamples
          = Except.error PCError.assertionFailed := h
      unfold impute_categorical_vals at h
      cases hm : ((value_counts vals).map Prod.snd).max? with
      | none => rw [hm] at h; cases h
      | some mode_count =>
          rw [hm] at h
          replace h : impute_mode_entry (value_counts vals) mode_count numsamples
              = Except.error PCError.assertionFailed := h
          unfold impute_mode_entry at h
          cases hf : (value_counts vals).find? (fun p => p.2 == mode_count) with
          | none => rw [hf] at h; cases h
          | some p => rw [hf] at h; cases h

/-- `_impute_numerical` can never fail with the numsamples assertion. -/
theorem impute_numerical_ne_assertion (sample : List (List LVal)) :
    impute_numerical sample ≠ .error .assertionFailed := by
  intro h
  unfold impute_numerical at h
  cases hv : sample.mapM List.head? with
  | none => rw [hv] at h; cases h
  | some vals =>
      rw [hv] at h
      replace h : impute_numerical_vals vals sample.length
          = Except.error PCError.assertionFailed := h
      unfold impute_numerical_vals at h
      cases hm : vals.mapM lval_to_rat with
      | none => rw [hm] at h; cases h
      | some qs =>
          rw [hm] at h
          replace h : impute_numerical_qs qs sample.length
              = Except.error PCError.assertionFailed := h
          unfold impute_numerical_qs at h
          by_cases hlen : sample.length = 0
          · rw [if_pos hlen] at h
            cases h
          · rw [if_neg hlen] at h
            cases h

/-- C10: passing `numsamples = 0` does not trip the `must be > 0`
requirement: the falsy 0 is replaced by the default 2 before the assertion is
checked, so the call behaves identically to passing no numsamples at all and
never raises the assertion failure. -/
theorem predict_confidence_zero_numsamples (eng : SimEngine)
    (pf : String → Option ℚ) (columnName : Nat → String)
    (stattypeOf : Nat → String) (fresh : Bool)
    (row_values : List (Option String)) (colno : Nat) :
    (resolve_numsamples (some 0) = 2)
  ∧ (resolve_numsamples none = 2)
  ∧ (predict_confidence eng pf columnName stattypeOf fresh row_values colno
        (some 0)
      = predict_confidence eng pf columnName stattypeOf fresh row_values colno
        none)
  ∧ (predict_confidence eng pf columnName stattypeOf fresh row_values colno
        (some 0) ≠ .error .assertionFailed) := by
  refine ⟨rfl, rfl, rfl, ?_⟩
  have hred : predict_confidence eng pf columnName stattypeOf fresh row_values
      colno (some 0)
      = match (simulate_joint eng pf columnName stattypeOf fresh row_values
          [colno] [] 2).1 with
        | .error e => .error (.sim e)
        | .ok sample =>
            if is_categorical (stattypeOf colno) then impute_categorical sample 2
            else impute_numerical sample := rfl
  intro h
  rw [hred] at h
  cases hs : (simulate_joint eng pf columnName stattypeOf fresh row_values
      [colno] [] 2).1 with
  | error e => rw [hs] at h; cases h
  | ok sample =>
      rw [hs] at h
      have h2 : (if is_categorical (stattypeOf colno) then
          impute_categorical sample 2 else impute_numerical sample)
          = Except.error PCError.assertionFailed := h
      by_cases hc : is_categorical (stattypeOf colno) = true
      · rw [if_pos hc] at h2
        exact impute_categorical_ne_assertion sample 2 h2
      · rw [if_neg hc] at h2
        exact impute_numerical_ne_assertion sample h2

/-- Errors of an `Except`-valued `mapM` come from some element's errors. -/
theorem mapM_except_error {α β ε : Type} (f : α → Except ε β) (P : ε → Prop)
    (hf : ∀ a e, f a = .error e → P e) :
    ∀ (l : List α) (e : ε), l.mapM f = .error e → P e := by
  intro l
  induction l with
  | nil =>
      intro e h
      rw [List.mapM_nil] at h
      cases h
  | cons a t ih =>
      intro e h
      rw [List.mapM_cons] at h
      cases hfa : f a with
      | error e0 =>
          rw [hfa] at h
          have he : e0 = e := by cases h; rfl
          exact he ▸ hf a e0 hfa
      | ok b =>
          rw [hfa] at h
          cases hmt : t.mapM f with
          | error e1 =>
              rw [hmt] at h
              have he : e1 = e := by cases h; rfl
              exact he ▸ ih e1 hmt
          | ok bs =>
              rw [hmt] at h
              cases h

/-- Parsing a returned engine row can only fail with a missing target column
or a float parse failure. -/
theorem parse_sim_row_error_cases (pf : String → Option ℚ)
    (columnName : Nat → String) (stattypeOf : Nat → String)
    (targets : List Nat) (row : List (String × String)) (e : SimError)
    (h : parse_sim_row pf columnName stattypeOf targets row = .error e) :
    e = .missingTargetColumn ∨ e = .floatParseFailure := by
  refine mapM_except_error _
    (fun e2 => e2 = .missingTargetColumn ∨ e2 = .floatParseFailure)
    ?_ targets e h
  intro colno e2 hf
  revert hf
  cases row.lookup (str_lower (columnName colno)) with
  | none =>
      intro hf
      have : SimError.missingTargetColumn = e2 := by cases hf; rfl
      exact Or.inl this.symm
  | some v =>
      intro hf
      replace hf : parse_sim_value pf stattypeOf colno v = .error e2 := hf
      unfold parse_sim_value at hf
      by_cases haff : (stattype_affinity (stattypeOf colno) == "real") = true
      · rw [if_pos haff] at hf
        cases hpv : pf v with
        | none =>
            rw [hpv] at hf
            have : SimError.floatParseFailure = e2 := by cases hf; rfl
            exact Or.inr this.symm
        | some q =>
            rw [hpv] at hf
            cases hf
      · rw [if_neg haff] at hf
        cases hf

/-- The whole returned-sample parse can only fail with a missing target
column or a float parse failure. -/
theorem parse_rows_error_cases (pf : String → Option ℚ)
    (columnName : Nat → String) (stattypeOf : Nat → String)
    (targets : List Nat) (rows : List (List (String × String))) (e : SimError)
    (h : rows.mapM (parse_sim_row pf columnName stattypeOf targets)
        = .error e) :
    e = .missingTargetColumn ∨ e = .floatParseFailure :=
  mapM_except_error _
    (fun e2 => e2 = .missingTargetColumn ∨ e2 = .floatParseFailure)
    (fun row e2 hf => parse_sim_row_error_cases pf columnName stattypeOf
      targets row e2 hf) rows e h

/-- The conflict `ValueError` of the merge phase fires exactly when a known
row column is among the explicit constraint columns. -/
theorem merge_row_constraints_conflict_iff (row_values : List (Option String))
    (constraints : List (Nat × String))
    (hrow : known_row_entries row_values ≠ []) :
    merge_row_constraints false row_values constraints = .error .conflict
      ↔ ∃ p ∈ known_row_entries row_values,
          p.1 ∈ constraints.map Prod.fst := by
  unfold merge_row_constraints
  have hie : (known_row_entries row_values).isEmpty = false := by
    rcases h : (known_row_entries row_values).isEmpty with _ | _
    · rfl
    · exact absurd (List.isEmpty_iff.mp h) hrow
  simp only [Bool.false_eq_true, if_false]
  rw [hie]
  simp only [Bool.false_eq_true, if_false]
  by_cases hany : ((known_row_entries row_values).any
      (fun e => decide (e.1 ∈ constraints.map Prod.fst))) = true
  · rw [if_pos hany]
    obtain ⟨p, hp, hdec⟩ := List.any_eq_true.mp hany
    exact ⟨fun _ => ⟨p, hp, of_decide_eq_true hdec⟩, fun _ => rfl⟩
  · rw [if_neg hany]
    constructor
    · intro h
      cases h
    · intro ⟨p, hp, hmem⟩
      exact absurd (List.any_eq_true.mpr ⟨p, hp, decide_eq_true hmem⟩) hany

/-- Without a column overlap, the merge phase succeeds and appends the row's
known values to the explicit constraints. -/
theorem merge_row_constraints_ok (row_values : List (Option String))
    (constraints : List (Nat × String))
    (hrow : known_row_entries row_values ≠ [])
    (hno : ¬ ∃ p ∈ known_row_entries row_values,
        p.1 ∈ constraints.map Prod.fst) :
    merge_row_constraints false row_values constraints
      = .ok (constraints ++ known_row_entries row_values) := by
  unfold merge_row_constraints
  have hie : (known_row_entries row_values).isEmpty = false := by
    rcases h : (known_row_entries row_values).isEmpty with _ | _
    · rfl
    · exact absurd (List.isEmpty_iff.mp h) hrow
  simp only [Bool.false_eq_true, if_false]
  rw [hie]
  simp only [Bool.false_eq_true, if_false]
  have hany : ((known_row_entries row_values).any
      (fun e => decide (e.1 ∈ constraints.map Prod.fst))) = false := by
    rcases h : (known_row_entries row_values).any
        (fun e => decide (e.1 ∈ constraints.map Prod.fst)) with _ | _
    · rfl
    · obtain ⟨p, hp, hdec⟩ := List.any_eq_true.mp h
      exact absurd ⟨p, hp, of_decide_eq_true hdec⟩ hno
  rw [hany]
  simp only [Bool.false_eq_true, if_false]

/-- `simulate_joint` on a failed merge: the error propagates and no engine
call is made. -/
theorem simulate_joint_of_merge_error (eng : SimEngine)
    (pf : String → Option ℚ) (columnName : Nat → String)
    (stattypeOf : Nat → String) (fresh : Bool)
    (row_values : List (Option String)) (targets : List Nat)
    (constraints : List (Nat × String)) (num_samples : Nat) (e : SimError)
    (hmerge : merge_row_constraints fresh row_values constraints = .error e) :
    simulate_joint eng pf columnName stattypeOf fresh row_values targets
      constraints num_samples = (.error e, 0) := by
  unfold simulate_joint
  rw [hmerge]

/-- `simulate_joint` on a successful merge: one engine call on the built
request (unless the request is empty, which fails before the call). -/
theorem simulate_joint_of_merge_ok (eng : SimEngine)
    (pf : String → Option ℚ) (columnName : Nat → String)
    (stattypeOf : Nat → String) (fresh : Bool)
    (row_values : List (Option String)) (targets : List Nat)
    (constraints : List (Nat × String)) (num_samples : Nat)
    (constraints2 : List (Nat × String))
    (hmerge : merge_row_constraints fresh row_values constraints
      = .ok constraints2) :
    simulate_joint eng pf columnName stattypeOf fresh row_values targets
      constraints num_samples
      = (if (simulate_request columnName targets constraints2).isEmpty then
          (.error .emptyRequest, 0)
        else
          ((eng.predict
              ((simulate_request columnName targets constraints2).map
                (fun p => str_lower p.1))
              ((simulate_request columnName targets constraints2).map Prod.snd)
              num_samples).mapM
            (parse_sim_row pf columnName stattypeOf targets), 1)) := by
  unfold simulate_joint
  rw [hmerge]

/-- C1 (amended): for joint simulation on an existing (non-fresh) row with at
least one known value, the conflict error is raised exactly when an explicit
constraint names any column with a known (non-null) row value — regardless of
whether the two values agree — and in that case it is raised before any
engine predict call; when there is no column overlap the row's known values
are appended to the constraint set. -/
theorem simulate_joint_conflict_on_any_overlap (eng : SimEngine)
    (pf : String → Option ℚ) (columnName : Nat → String)
    (stattypeOf : Nat → String) (row_values : List (Option String))
    (targets : List Nat) (constraints : List (Nat × String))
    (num_samples : Nat)
    (hrow : known_row_entries row_values ≠ []) :
    ((simulate_joint eng pf columnName stattypeOf false row_values targets
        constraints num_samples).1 = .error .conflict
      ↔ ∃ p ∈ known_row_entries row_values,
          p.1 ∈ constraints.map Prod.fst)
  ∧ ((simulate_joint eng pf columnName stattypeOf false row_values targets
        constraints num_samples).1 = .error .conflict →
      (simulate_joint eng pf columnName stattypeOf false row_values targets
        constraints num_samples).2 = 0)
  ∧ ((¬ ∃ p ∈ known_row_entries row_values,
        p.1 ∈ constraints.map Prod.fst) →
      merge_row_constraints false row_values constraints
        = .ok (constraints ++ known_row_entries row_values)) := by
  by_cases hover : ∃ p ∈ known_row_entries row_values,
      p.1 ∈ constraints.map Prod.fst
  · have hmerge :=
      (merge_row_constraints_conflict_iff row_values constraints hrow).mpr hover
    have hsim := simulate_joint_of_merge_error eng pf columnName stattypeOf
      false row_values targets constraints num_samples .conflict hmerge
    refine ⟨⟨fun _ => hover, fun _ => ?_⟩, fun _ => ?_, fun hno => absurd hover hno⟩
    · rw [hsim]
    · rw [hsim]
  · have hmerge := merge_row_constraints_ok row_values constraints hrow hover
    have hsim := simulate_joint_of_merge_ok eng pf columnName stattypeOf
      false row_values targets constraints num_samples _ hmerge
    have hnc : (simulate_joint eng pf columnName stattypeOf false row_values
        targets constraints num_samples).1 ≠ .error .conflict := by
      rw [hsim]
      by_cases hreq : (simulate_request columnName targets
          (constraints ++ known_row_entries row_values)).isEmpty = true
      · rw [if_pos hreq]
        intro h
        cases h
      · rw [if_neg hreq]
        intro h
        rcases parse_rows_error_cases pf columnName stattypeOf targets _
            SimError.conflict h with h2 | h2 <;> cases h2
    exact ⟨⟨fun h => absurd h hnc, fun h => absurd h hover⟩,
      fun h => absurd h hnc, fun _ => hmerge⟩

/-- C1 counterexample: joint simulation with target column C (index 0) and
an explicit constraint on column D (index 1) equal to the row's stored value
for D (`"x"`) does NOT succeed — the code raises the conflict error (with no
engine call) even though the constraint agrees with the stored value, so the
claimed example scenario is false on the code. -/
theorem simulate_joint_equal_value_constraint_rejected :
    ((simulate_joint c5_engine (fun _ => none) c5_names c5_stattypes false
        [none, some "x"] [0] [(1, "x")] 1).1 = .error .conflict)
  ∧ ((simulate_joint c5_engine (fun _ => none) c5_names c5_stattypes false
        [none, some "x"] [0] [(1, "x")] 1).2 = 0) :=
  ⟨rfl, rfl⟩

/-- Witness for the amended C1 at a concrete input: the row has one known
value at column 0 and the explicit constraint names column 0 with a different
value, so the conflict fires with zero engine calls. -/
theorem simulate_joint_conflict_on_any_overlap_witness :
    (known_row_entries [some "y"] ≠ [])
  ∧ (((simulate_joint c5_engine (fun _ => none) c5_names c5_stattypes false
        [some "y"] [] [(0, "x")] 1).1 = .error .conflict)
      ↔ ∃ p ∈ known_row_entries [some "y"],
          p.1 ∈ ([(0, "x")] : List (Nat × String)).map Prod.fst)
  ∧ (((simulate_joint c5_engine (fun _ => none) c5_names c5_stattypes false
        [some "y"] [] [(0, "x")] 1).1 = .error .conflict) →
      (simulate_joint c5_engine (fun _ => none) c5_names c5_stattypes false
        [some "y"] [] [(0, "x")] 1).2 = 0)
  ∧ ((simulate_joint c5_engine (fun _ => none) c5_names c5_stattypes false
        [some "y"] [] [(0, "x")] 1).1 = .error .conflict) := by
  have h := simulate_joint_conflict_on_any_overlap c5_engine (fun _ => none)
    c5_names c5_stattypes [some "y"] [] [(0, "x")] 1 (by decide)
  exact ⟨by decide, h.1, h.2.1, by rfl⟩

/-- `List.max?` on naturals returns a member that bounds every member. -/
theorem nat_max?_spec (l : List Nat) (a : Nat) (h : l.max? = some a) :
    a ∈ l ∧ ∀ b ∈ l, b ≤ a := by
  rw [List.max?_eq_some_iff (fun x => le_refl x) (fun x y => max_choice x y)
    (fun x y z => Nat.max_le)] at h
  exact h

/-- Invariant of the `Counter` loop: starting from an accumulator that
correctly counts a processed prefix, the loop correctly counts the prefix
plus the remaining values, and every counted value has an entry. -/
theorem value_counts_loop (vals : List LVal) :
    ∀ (acc : List (LVal × Nat)) (processed : List LVal),
      (∀ p ∈ acc, p.1 ∈ processed
        ∧ p.2 = processed.countP (fun u => u == p.1)) →
      (∀ u ∈ processed, ∃ p ∈ acc, p.1 = u) →
      (∀ p ∈ vals.foldl (fun acc v =>
          if acc.any (fun p => p.1 == v) then
            acc.map (fun p => if p.1 == v then (p.1, p.2 + 1) else p)
          else acc ++ [(v, 1)]) acc,
        p.1 ∈ processed ++ vals
          ∧ p.2 = (processed ++ vals).countP (fun u => u == p.1))
      ∧ (∀ u ∈ processed ++ vals, ∃ p ∈ vals.foldl (fun acc v =>
          if acc.any (fun p => p.1 == v) then
            acc.map (fun p => if p.1 == v then (p.1, p.2 + 1) else p)
          else acc ++ [(v, 1)]) acc, p.1 = u) := by
  induction vals with
  | nil =>
      intro acc processed hacc hcov
      rw [List.foldl_nil, List.append_nil]
      exact ⟨hacc, hcov⟩
  | cons v rest ih =>
      intro acc processed hacc hcov
      rw [List.foldl_cons]
      by_cases hany : (acc.any (fun p => p.1 == v)) = true
      · rw [if_pos hany]
        have hacc2 : ∀ q ∈ acc.map (fun p =>
            if p.1 == v then (p.1, p.2 + 1) else p),
            q.1 ∈ processed ++ [v]
              ∧ q.2 = (processed ++ [v]).countP (fun u => u == q.1) := by
          intro q hq
          obtain ⟨p, hp, hbump⟩ := List.mem_map.mp hq
          by_cases hpv : (p.1 == v) = true
          · rw [if_pos hpv] at hbump
            rw [← hbump]
            refine ⟨List.mem_append_left _ (hacc p hp).1, ?_⟩
            rw [List.countP_append]
            have hCp : List.countP (fun u => u == p.1) [v] = 1 := by
              simp [List.countP_cons, eq_of_beq hpv]
            rw [hCp, (hacc p hp).2]
          · rw [if_neg hpv] at hbump
            rw [← hbump]
            refine ⟨List.mem_append_left _ (hacc p hp).1, ?_⟩
            rw [List.countP_append]
            have hvp : (v == p.1) = false := by
              rcases hpb : (v == p.1) with _ | _
              · rfl
              · rw [eq_of_beq hpb] at hpv
                rw [beq_self_eq_true] at hpv
                exact absurd rfl hpv
            have hCp : List.countP (fun u => u == p.1) [v] = 0 := by
              simp [List.countP_cons, hvp]
            rw [hCp, (hacc p hp).2, Nat.add_zero]
        have hcov2 : ∀ u ∈ processed ++ [v], ∃ q ∈ acc.map (fun p =>
            if p.1 == v then (p.1, p.2 + 1) else p), q.1 = u := by
          intro u hu
          have hfst : ∀ p : LVal × Nat,
              ((fun p => if p.1 == v then (p.1, p.2 + 1) else p) p).1 = p.1 := by
            intro p
            show (if (p.1 == v) = true then (p.1, p.2 + 1) else p).1 = p.1
            by_cases hpv : (p.1 == v) = true
            · rw [if_pos hpv]
            · rw [if_neg hpv]
          rcases List.mem_append.mp hu with hu2 | hu2
          · obtain ⟨p, hp, hp1⟩ := hcov u hu2
            exact ⟨(fun p => if p.1 == v then (p.1, p.2 + 1) else p) p,
              List.mem_map.mpr ⟨p, hp, rfl⟩, by rw [hfst p, hp1]⟩
          · have huv : u = v := by
              cases hu2 with
              | head => rfl
              | tail _ h2 => cases h2
            obtain ⟨p, hp, hpv⟩ := List.any_eq_true.mp hany
            exact ⟨(fun p => if p.1 == v then (p.1, p.2 + 1) else p) p,
              List.mem_map.mpr ⟨p, hp, rfl⟩,
              by rw [hfst p, eq_of_beq hpv, huv]⟩
        have hres := ih _ _ hacc2 hcov2
        rw [List.append_cons processed v rest]
        exact hres
      · rw [if_neg hany]
        have hnoteq : ∀ p ∈ acc, (p.1 == v) = false := by
          intro p hp
          rcases hpb : (p.1 == v) with _ | _
          · rfl
          · exact absurd (List.any_eq_true.mpr ⟨p, hp, hpb⟩) hany
        have hacc2 : ∀ q ∈ acc ++ [(v, 1)],
            q.1 ∈ processed ++ [v]
              ∧ q.2 = (processed ++ [v]).countP (fun u => u == q.1) := by
          intro q hq
          rcases List.mem_append.mp hq with hq2 | hq2
          · refine ⟨List.mem_append_left _ (hacc q hq2).1, ?_⟩
            rw [List.countP_append]
            have hvq : (v == q.1) = false := by
              rcases hpb : (v == q.1) with _ | _
              · rfl
              · have := hnoteq q hq2
                rw [eq_of_beq hpb] at this
                rw [beq_self_eq_true] at this
                cases this
            have hCp : List.countP (fun u => u == q.1) [v] = 0 := by
              simp [List.countP_cons, hvq]
            rw [hCp, (hacc q hq2).2, Nat.add_zero]
          · have hq3 : q = (v, 1) := by
              cases hq2 with
              | head => rfl
              | tail _ h2 => cases h2
            rw [hq3]
            refine ⟨List.mem_append_right _ (List.mem_singleton.mpr rfl), ?_⟩
            rw [List.countP_append]
            have hC0 : processed.countP (fun u => u == v) = 0 := by
              rw [List.countP_eq_zero]
              intro u hu
              intro hub
              obtain ⟨p, hp, hp1⟩ := hcov u hu
              have : (p.1 == v) = true := by rw [hp1]; exact hub
              rw [hnoteq p hp] at this
              cases this
            have hC1 : List.countP (fun u => u == v) [v] = 1 := by
              simp [List.countP_cons]
            rw [hC0, hC1]
        have hcov2 : ∀ u ∈ processed ++ [v],
            ∃ q ∈ acc ++ [(v, 1)], q.1 = u := by
          intro u hu
          rcases List.mem_append.mp hu with hu2 | hu2
          · obtain ⟨p, hp, hp1⟩ := hcov u hu2
            exact ⟨p, List.mem_append_left _ hp, hp1⟩
          · have huv : u = v := by
              cases hu2 with
              | head => rfl
              | tail _ h2 => cases h2
            exact ⟨(v, 1), List.mem_append_right _ (List.mem_singleton.mpr rfl),
              huv.symm⟩
        have hres := ih _ _ hacc2 hcov2
        rw [List.append_cons processed v rest]
        exact hres

/-- The `Counter` of `_impute_categorical` counts correctly: every entry's
count is the number of occurrences of its value, and every drawn value has an
entry. -/
theorem value_counts_spec (vals : List LVal) :
    (∀ p ∈ value_counts vals,
      p.1 ∈ vals ∧ p.2 = vals.countP (fun u => u == p.1))
  ∧ (∀ u ∈ vals, ∃ p ∈ value_counts vals, p.1 = u) := by
  have h := value_counts_loop vals [] []
    (by intro p hp; cases hp) (by intro u hu; cases hu)
  rw [List.nil_append] at h
  exact h

/-- `_impute_categorical` returns a drawn value of maximal occurrence count,
with confidence equal to that count divided by `numsamples`. -/
theorem impute_categorical_mode (sample : List (List LVal)) (vals : List LVal)
    (v : LVal) (c : ℚ) (n : Int)
    (hvals : sample.mapM List.head? = some vals)
    (himp : impute_categorical sample n = .ok (v, c)) :
    v ∈ vals ∧ c = (vals.countP (fun u => u == v) : ℚ) / ((n : Int) : ℚ)
      ∧ ∀ w ∈ vals,
          vals.countP (fun u => u == w) ≤ vals.countP (fun u => u == v) := by
  unfold impute_categorical at himp
  rw [hvals] at himp
  replace himp : impute_categorical_vals vals n = .ok (v, c) := himp
  unfold impute_categorical_vals at himp
  cases hmax : ((value_counts vals).map Prod.snd).max? with
  | none => rw [hmax] at himp; cases himp
  | some mode_count =>
      rw [hmax] at himp
      replace himp : impute_mode_entry (value_counts vals) mode_count n
          = .ok (v, c) := himp
      unfold impute_mode_entry at himp
      cases hfind : (value_counts vals).find? (fun p => p.2 == mode_count) with
      | none => rw [hfind] at himp; cases himp
      | some p =>
          rw [hfind] at himp
          have hpv : p.1 = v ∧ ((mode_count : ℚ) / ((n : Int) : ℚ)) = c := by
            cases himp
            exact ⟨rfl, rfl⟩
          have hmem := List.mem_of_find?_eq_some hfind
          have hp2 : p.2 = mode_count := by
            have := List.find?_some hfind
            exact eq_of_beq this
          have hspec := (value_counts_spec vals).1 p hmem
          have hmax2 := nat_max?_spec _ _ hmax
          refine ⟨hpv.1 ▸ hspec.1, ?_, ?_⟩
          · rw [← hpv.2, ← hpv.1, ← hspec.2, hp2]
          · intro w hw
            obtain ⟨q, hq, hq1⟩ := (value_counts_spec vals).2 w hw
            have hqc := (value_counts_spec vals).1 q hq
            have hle : q.2 ≤ mode_count :=
              hmax2.2 q.2 (List.mem_map.mpr ⟨q, hq, rfl⟩)
            calc vals.countP (fun u => u == w) = q.2 := by rw [hqc.2, hq1]
              _ ≤ mode_count := hle
              _ = vals.countP (fun u => u == v) := by
                  rw [← hp2, hspec.2, hpv.1]

/-- Extracting the rationals back out of a list of numeric sample values. -/
theorem mapM_lval_to_rat_of_map (qs : List ℚ) :
    (qs.map LVal.real).mapM lval_to_rat = some qs := by
  induction qs with
  | nil => rfl
  | cons q t ih =>
      rw [List.map_cons, List.mapM_cons, ih]
      rfl

/-- `_impute_numerical` returns the mean of the drawn values with confidence
0. -/
theorem impute_numerical_mean (sample : List (List LVal)) (qs : List ℚ)
    (hvals : sample.mapM List.head? = some (qs.map LVal.real))
    (hne : sample ≠ []) :
    impute_numerical sample = .ok (.real (qs.sum / (sample.length : ℚ)), 0) := by
  unfold impute_numerical
  rw [hvals]
  show impute_numerical_vals (qs.map LVal.real) sample.length = _
  unfold impute_numerical_vals
  rw [mapM_lval_to_rat_of_map]
  show impute_numerical_qs qs sample.length = _
  unfold impute_numerical_qs
  rw [if_neg (fun h => hne (List.length_eq_zero.mp h))]

/-- A known row entry points at a stored non-null value. -/
theorem known_row_entries_get (row_values : List (Option String)) :
    ∀ p ∈ known_row_entries row_values,
      row_values.get? p.1 = some (some p.2) := by
  intro p hp
  obtain ⟨q, hq, hmap⟩ := List.mem_filterMap.mp hp
  cases hqv : q.2 with
  | none => rw [hqv] at hmap; cases hmap
  | some v =>
      rw [hqv] at hmap
      have hpq : (q.1, v) = p := by cases hmap; rfl
      have hget := List.mem_enum_iff_get?.mp hq
      rw [← hpq]
      show row_values.get? q.1 = some (some v)
      rw [hget, hqv]

/-- C5: confidence-scored prediction with no numsamples uses the default 2
(which satisfies the positivity requirement); it draws the joint simulations
with empty explicit constraints, so for an existing row whose target cell is
null the merged constraint set is exactly the row's other known values; on a
categorical-like column it returns a drawn value of maximal count paired with
that count over the number of draws, and otherwise the mean of the draws
paired with confidence 0. -/
theorem predict_confidence_spec (eng : SimEngine) (pf : String → Option ℚ)
    (columnName : Nat → String) (stattypeOf : Nat → String)
    (row_values : List (Option String)) (colno : Nat)
    (sample : List (List LVal))
    (hnull : row_values.get? colno = some none)
    (hrow : known_row_entries row_values ≠ [])
    (hsim : (simulate_joint eng pf columnName stattypeOf false row_values
        [colno] [] 2).1 = .ok sample) :
    (merge_row_constraints false row_values []
        = .ok (known_row_entries row_values))
  ∧ (∀ p ∈ known_row_entries row_values, p.1 ≠ colno)
  ∧ (predict_confidence eng pf columnName stattypeOf false row_values colno
        none
      = if is_categorical (stattypeOf colno) then impute_categorical sample 2
        else impute_numerical sample)
  ∧ (∀ vals v c, sample.mapM List.head? = some vals →
      impute_categorical sample 2 = .ok (v, c) →
      v ∈ vals ∧ c = (vals.countP (fun u => u == v) : ℚ) / 2
        ∧ ∀ w ∈ vals,
            vals.countP (fun u => u == w) ≤ vals.countP (fun u => u == v))
  ∧ (∀ qs : List ℚ, sample.mapM List.head? = some (qs.map LVal.real) →
      sample ≠ [] →
      impute_numerical sample
        = .ok (.real (qs.sum / (sample.length : ℚ)), 0)) := by
  refine ⟨?_, ?_, ?_, ?_, ?_⟩
  · have h := merge_row_constraints_ok row_values [] hrow ?_
    · rw [List.nil_append] at h
      exact h
    · intro hex
      obtain ⟨p, _, hmem⟩ := hex
      simp at hmem
  · intro p hp hcol
    have hget := known_row_entries_get row_values p hp
    rw [hcol, hnull] at hget
    cases hget
  · have hred : predict_confidence eng pf columnName stattypeOf false
        row_values colno none
        = match (simulate_joint eng pf columnName stattypeOf false row_values
            [colno] [] 2).1 with
          | .error e => .error (.sim e)
          | .ok s =>
              if is_categorical (stattypeOf colno) then impute_categorical s 2
              else impute_numerical s := rfl
    rw [hred, hsim]
  · intro vals v c hvals himp
    have h := impute_categorical_mode sample vals v c 2 hvals himp
    refine ⟨h.1, ?_, h.2.2⟩
    rw [h.2.1]
    norm_num
  · intro qs hvals hne
    exact impute_numerical_mean sample qs hvals hne

/-- Witness for C5 at the concrete scenario: an existing row with the target
cell null and one other known value, a categorical target column, and an
engine whose 2 draws both return "red"; the prediction is ("red", 1). -/
theorem predict_confidence_spec_witness :
    (c5_row.get? 0 = some none)
  ∧ (known_row_entries c5_row ≠ [])
  ∧ ((simulate_joint c5_engine (fun _ => none) c5_names c5_stattypes false
      c5_row [0] [] 2).1 = .ok [[.str "red"], [.str "red"]])
  ∧ (merge_row_constraints false c5_row [] = .ok (known_row_entries c5_row))
  ∧ (predict_confidence c5_engine (fun _ => none) c5_names c5_stattypes false
      c5_row 0 none = .ok (.str "red", 1)) := by
  have h := predict_confidence_spec c5_engine (fun _ => none) c5_names
    c5_stattypes c5_row 0 [[.str "red"], [.str "red"]] (by rfl) (by decide)
    (by rfl)
  refine ⟨rfl, by decide, by rfl, h.1, ?_⟩
  rw [h.2.2.1]
  have hc : is_categorical (c5_stattypes 0) = true := rfl
  rw [if_pos hc]
  have hq : ((2 : Nat) : ℚ) / ((2 : Int) : ℚ) = 1 := by norm_num
  show Except.ok (LVal.str "red", ((2 : Nat) : ℚ) / ((2 : Int) : ℚ))
      = Except.ok (LVal.str "red", 1)
  rw [hq]

/-- `List.lookup` on a string-keyed cons cell whose key matches. -/
theorem slookup_cons_self {β : Type} (a : String) (b : β)
    (t : List (String × β)) :
    List.lookup a ((a, b) :: t) = some b := by
  rw [List.lookup_cons]
  simp

/-- `List.lookup` on a string-keyed cons cell whose key differs. -/
theorem slookup_cons_ne {β : Type} {g a : String} (b : β)
    (t : List (String × β)) (h : ¬ g = a) :
    List.lookup g ((a, b) :: t) = List.lookup g t := by
  rw [List.lookup_cons]
  have hb : (g == a) = false := by simp [h]
  rw [hb]

/-- Appending one differently-keyed pair does not change a lookup. -/
theorem slookup_append_single {β : Type} (d : List (String × β)) (k : String)
    (v : β) (k2 : String) (hne : k2 ≠ k) :
    (d ++ [(k, v)]).lookup k2 = d.lookup k2 := by
  induction d with
  | nil =>
      rw [List.nil_append, slookup_cons_ne v [] hne]
  | cons p t ih =>
      rcases p with ⟨a, b⟩
      rw [List.cons_append]
      by_cases hg : k2 = a
      · subst hg
        rw [slookup_cons_self, slookup_cons_self]
      · rw [slookup_cons_ne b _ hg, slookup_cons_ne b t hg, ih]

/-- A key matched by no pair looks up to `none`. -/
theorem slookup_of_not_any {β : Type} (d : List (String × β)) (k : String)
    (h : d.any (fun p => p.1 == k) = false) :
    d.lookup k = none := by
  induction d with
  | nil => rfl
  | cons p t ih =>
      rcases p with ⟨a, b⟩
      rw [List.any_cons] at h
      rcases Bool.or_eq_false_iff.mp h with ⟨h1, h2⟩
      have hka : ¬ k = a := by
        intro hk
        rw [hk] at h1
        rw [beq_self_eq_true] at h1
        cases h1
      rw [slookup_cons_ne b t hka]
      exact ih h2

/-- Lookup passes over a prefix that misses the key. -/
theorem slookup_append_of_none {β : Type} (d e : List (String × β)) (k : String)
    (h : d.lookup k = none) :
    (d ++ e).lookup k = e.lookup k := by
  induction d with
  | nil => rfl
  | cons p t ih =>
      rcases p with ⟨a, b⟩
      by_cases hk : k = a
      · subst hk
        rw [slookup_cons_self] at h
        cases h
      · rw [slookup_cons_ne b t hk] at h
        rw [List.cons_append, slookup_cons_ne b _ hk]
        exact ih h

/-- An in-place dict update at one key does not change other lookups. -/
theorem slookup_map_upd_ne (t : List (String × Option ℚ)) (k : String)
    (v : Option ℚ) (k2 : String) (hne : k2 ≠ k) :
    (t.map (fun p => if p.1 == k then (k, v) else p)).lookup k2
      = t.lookup k2 := by
  induction t with
  | nil => rfl
  | cons q r ih =>
      rcases q with ⟨a, b⟩
      rw [List.map_cons]
      by_cases hq : ((a, b).1 == k) = true
      · rw [if_pos hq]
        have ha : a = k := eq_of_beq hq
        rw [slookup_cons_ne v _ hne, slookup_cons_ne b r (ha ▸ hne), ih]
      · rw [if_neg hq]
        by_cases hg : k2 = a
        · subst hg
          rw [slookup_cons_self, slookup_cons_self]
        · rw [slookup_cons_ne b _ hg, slookup_cons_ne b r hg, ih]

/-- Updating a present key in place makes it look up to the new value. -/
theorem slookup_map_upd_self (d : List (String × Option ℚ)) (k : String)
    (v : Option ℚ) (hk : d.any (fun p => p.1 == k) = true) :
    (d.map (fun p => if p.1 == k then (k, v) else p)).lookup k = some v := by
  induction d with
  | nil => cases hk
  | cons p t ih =>
      rcases p with ⟨a, b⟩
      rw [List.map_cons]
      by_cases hp : ((a, b).1 == k) = true
      · rw [if_pos hp]
        exact slookup_cons_self k v _
      · rw [if_neg hp]
        have ha : ¬ k = a := by
          intro h2
          rw [h2] at hp
          exact hp (beq_self_eq_true a)
        rw [slookup_cons_ne b _ ha]
        apply ih
        rw [List.any_cons] at hk
        have hpf : ((a, b).1 == k) = false := Bool.eq_false_iff.mpr hp
        rw [hpf] at hk
        rw [Bool.false_or] at hk
        exact hk

/-- Full lookup characterization of a Python dict assignment. -/
theorem od_set_lookup (d : List (String × Option ℚ)) (k : String)
    (v : Option ℚ) (k2 : String) :
    (od_set d k v).lookup k2 = if k2 = k then some v else d.lookup k2 := by
  unfold od_set
  by_cases hk : (d.any (fun p => p.1 == k)) = true
  · rw [if_pos hk]
    by_cases h2 : k2 = k
    · subst h2
      rw [if_pos rfl]
      exact slookup_map_upd_self d k2 v hk
    · rw [if_neg h2]
      exact slookup_map_upd_ne d k v k2 h2
  · rw [if_neg hk]
    have hkf : d.any (fun p => p.1 == k) = false := Bool.eq_false_iff.mpr hk
    by_cases h2 : k2 = k
    · subst h2
      rw [if_pos rfl, slookup_append_of_none d [(k2, v)] k2
        (slookup_of_not_any d k2 hkf), slookup_cons_self]
    · rw [if_neg h2]
      exact slookup_append_single d k v k2 h2

/-- A key present in the dict makes the presence test succeed. -/
theorem any_fst_beq_of_mem {β : Type} (d : List (String × β)) (k : String)
    (h : k ∈ d.map Prod.fst) :
    d.any (fun p => p.1 == k) = true := by
  obtain ⟨p, hp, hpk⟩ := List.mem_map.mp h
  exact List.any_eq_true.mpr ⟨p, hp, by simp [hpk]⟩

/-- Assigning to a present key keeps the dict's key list unchanged. -/
theorem od_set_map_fst (d : List (String × Option ℚ)) (k : String)
    (v : Option ℚ) (hk : d.any (fun p => p.1 == k) = true) :
    (od_set d k v).map Prod.fst = d.map Prod.fst := by
  unfold od_set
  rw [if_pos hk, List.map_map]
  apply List.map_congr_left
  intro p _
  show (if (p.1 == k) = true then (k, v) else p).1 = p.1
  by_cases hp : (p.1 == k) = true
  · rw [if_pos hp]
    exact (eq_of_beq hp).symm
  · rw [if_neg hp]

/-- A sequence of assignments to present keys keeps the key list. -/
theorem apply_od_updates_map_fst :
    ∀ (us : List (String × Option ℚ)) (d : List (String × Option ℚ)),
      (∀ u ∈ us, u.1 ∈ d.map Prod.fst) →
      (apply_od_updates d us).map Prod.fst = d.map Prod.fst := by
  intro us
  induction us with
  | nil => intro d _; rfl
  | cons u t ih =>
      intro d h
      show (apply_od_updates (od_set d u.1 u.2) t).map Prod.fst = _
      have hk := any_fst_beq_of_mem d u.1 (h u (List.mem_cons_self u t))
      have hfst := od_set_map_fst d u.1 u.2 hk
      rw [ih (od_set d u.1 u.2)
        (fun w hw => by rw [hfst]; exact h w (List.mem_cons_of_mem _ hw)), hfst]

/-- The lookup after a sequence of assignments folds over the updates with
the last matching assignment winning. -/
theorem apply_od_updates_lookup :
    ∀ (us : List (String × Option ℚ)) (d : List (String × Option ℚ))
      (k : String),
      (apply_od_updates d us).lookup k =
        us.foldl (fun r u => if u.1 == k then some u.2 else r) (d.lookup k) := by
  intro us
  induction us with
  | nil => intro d k; rfl
  | cons u t ih =>
      intro d k
      show (apply_od_updates (od_set d u.1 u.2) t).lookup k = _
      rw [ih, od_set_lookup, List.foldl_cons]
      by_cases h : k = u.1
      · rw [if_pos h, if_pos (by simp [h])]
      · rw [if_neg h, if_neg (by
          intro hb
          exact h (eq_of_beq hb).symm)]

/-- An update list hitting the key nowhere leaves the fold value alone. -/
theorem pick_fold_no_hit :
    ∀ (us : List (String × Option ℚ)) (k : String)
      (init : Option (Option ℚ)),
      (∀ u ∈ us, (u.1 == k) = false) →
      us.foldl (fun r u => if u.1 == k then some u.2 else r) init = init := by
  intro us
  induction us with
  | nil => intro k init _; rfl
  | cons u t ih =>
      intro k init h
      rw [List.foldl_cons, if_neg (by
        rw [h u (List.mem_cons_self u t)]
        exact Bool.false_ne_true)]
      exact ih k init (fun w hw => h w (List.mem_cons_of_mem _ hw))

/-- With duplicate-free update keys, the update fold is the first (unique)
matching update, falling back to the initial value. -/
theorem pick_fold_nodup :
    ∀ (us : List (String × Option ℚ)) (k : String)
      (init : Option (Option ℚ)),
      ((us.map Prod.fst).Nodup) →
      us.foldl (fun r u => if u.1 == k then some u.2 else r) init =
        (match us.find? (fun u => u.1 == k) with
         | some u => some u.2
         | none => init) := by
  intro us
  induction us with
  | nil => intro k init _; rfl
  | cons u t ih =>
      intro k init hnd
      rw [List.map_cons, List.nodup_cons] at hnd
      rw [List.foldl_cons]
      by_cases hu : (u.1 == k) = true
      · rw [if_pos hu, List.find?_cons_of_pos t hu]
        apply pick_fold_no_hit
        intro w hw
        rcases hwb : (w.1 == k) with _ | _
        · rfl
        · exfalso
          have hw1 : w.1 = k := eq_of_beq hwb
          have hu1 : u.1 = k := eq_of_beq hu
          exact hnd.1 (by
            rw [hu1, ← hw1]
            exact List.mem_map.mpr ⟨w, hw, rfl⟩)
      · rw [if_neg hu, List.find?_cons_of_neg t hu]
        exact ih k init hnd.2

/-- The update list of the target/constraint value assignments has exactly
the variable names of the pairs as keys. -/
theorem value_updates_map_fst (cv : Int → InVal → Option ℚ)
    (variableName : Int → String) (ps : List (Int × InVal)) :
    (value_updates cv variableName ps).map Prod.fst
      = ps.map (fun p => variableName p.1) := by
  unfold value_updates
  rw [List.map_map]
  rfl

/-- The update list of the target `None` assignments has exactly the
variable names of the pairs as keys. -/
theorem none_updates_map_fst (variableName : Int → String)
    (ps : List (Int × InVal)) :
    (none_updates variableName ps).map Prod.fst
      = ps.map (fun p => variableName p.1) := by
  unfold none_updates
  rw [List.map_map]
  rfl

/-- Finding a key among the value assignments is finding the pair whose
variable name matches. -/
theorem find_value_updates (cv : Int → InVal → Option ℚ)
    (variableName : Int → String) (ps : List (Int × InVal)) (l : String) :
    (value_updates cv variableName ps).find? (fun u => u.1 == l)
      = (ps.find? (fun p => variableName p.1 == l)).map
          (fun p => (variableName p.1, cv p.1 p.2)) := by
  unfold value_updates
  rw [List.find?_map]
  rfl

/-- Finding a key among the `None` assignments is finding the pair whose
variable name matches. -/
theorem find_none_updates (variableName : Int → String)
    (ps : List (Int × InVal)) (l : String) :
    (none_updates variableName ps).find? (fun u => u.1 == l)
      = (ps.find? (fun p => variableName p.1 == l)).map
          (fun p => (variableName p.1, (none : Option ℚ))) := by
  unfold none_updates
  rw [List.find?_map]
  rfl

/-- The update fold of the value assignments picks the (unique) matching
pair's converted value, else keeps the initial value. -/
theorem fold_value_updates (cv : Int → InVal → Option ℚ)
    (variableName : Int → String) (ps : List (Int × InVal)) (l : String)
    (init : Option (Option ℚ))
    (hnd : (ps.map (fun p => variableName p.1)).Nodup) :
    (value_updates cv variableName ps).foldl
        (fun r u => if u.1 == l then some u.2 else r) init
      = (match ps.find? (fun p => variableName p.1 == l) with
         | some p => some (cv p.1 p.2)
         | none => init) := by
  rw [pick_fold_nodup _ l init
    (by rw [value_updates_map_fst]; exact hnd), find_value_updates]
  cases hf : ps.find? (fun p => variableName p.1 == l) with
  | none => rfl
  | some p => rfl

/-- The update fold of the `None` assignments forces the value to `None`
when any pair's name matches, else keeps the initial value. -/
theorem fold_none_updates (variableName : Int → String)
    (ps : List (Int × InVal)) (l : String) (init : Option (Option ℚ))
    (hnd : (ps.map (fun p => variableName p.1)).Nodup) :
    (none_updates variableName ps).foldl
        (fun r u => if u.1 == l then some u.2 else r) init
      = (match ps.find? (fun p => variableName p.1 == l) with
         | some _ => some none
         | none => init) := by
  rw [pick_fold_nodup _ l init
    (by rw [none_updates_map_fst]; exact hnd), find_none_updates]
  cases hf : ps.find? (fun p => variableName p.1 == l) with
  | none => rfl
  | some p => rfl

/-- Applying two update runs in sequence is applying their concatenation. -/
theorem apply_od_updates_append (d a b : List (String × Option ℚ)) :
    apply_od_updates (apply_od_updates d a) b
      = apply_od_updates d (a ++ b) := by
  unfold apply_od_updates
  rw [List.foldl_append]

/-- Every label of the freshly initialized dict looks up to a stored
`None`. -/
theorem init_lookup (labels : List String) (l : String) (h : l ∈ labels) :
    (labels.map (fun x => (x, (none : Option ℚ)))).lookup l
      = some none := by
  induction labels with
  | nil => cases h
  | cons a t ih =>
      rw [List.map_cons]
      by_cases hl : l = a
      · subst hl
        exact slookup_cons_self l none _
      · rw [slookup_cons_ne none _ hl]
        exact ih ((List.mem_cons.mp h).resolve_left hl)

/-- The freshly initialized dict has exactly the labels as keys. -/
theorem init_map_fst (labels : List String) :
    (labels.map (fun x => (x, (none : Option ℚ)))).map Prod.fst
      = labels := by
  rw [List.map_map]
  exact List.map_id labels

/-- A dict whose keys are exactly a duplicate-free label list and whose
lookups agree with `g` has value column `labels.map g`. -/
theorem alist_snd_eq :
    ∀ (d : List (String × Option ℚ)) (labels : List String)
      (g : String → Option ℚ),
      d.map Prod.fst = labels → labels.Nodup →
      (∀ l ∈ labels, d.lookup l = some (g l)) →
      d.map Prod.snd = labels.map g := by
  intro d
  induction d with
  | nil =>
      intro labels g hfst _ _
      rw [← hfst]
      rfl
  | cons p t ih =>
      intro labels g hfst hnd hlk
      rcases p with ⟨a, b⟩
      rw [List.map_cons] at hfst
      subst hfst
      rw [List.nodup_cons] at hnd
      have hb : b = g a := by
        have := hlk a (List.mem_cons_self _ _)
        rw [slookup_cons_self] at this
        exact Option.some.inj this
      rw [List.map_cons, List.map_cons, hb,
        ih (t.map Prod.fst) g rfl hnd.2 (fun l hl => by
          have hla : ¬ l = a := fun h => hnd.1 (h ▸ hl)
          have := hlk l (List.mem_cons_of_mem _ hl)
          rw [slookup_cons_ne b t hla] at this
          exact this)]

/-- The target loop of `logpdf_joint` succeeds when every conversion does,
applying the value assignments to the `and` dict and the `None` assignments
to the `conditional` dict. -/
theorem fold_targets_ok (pf : String → Option ℚ) (s : LoomStore)
    (generator_id : Int) (variableName : Int → String)
    (stattypeOf : Int → String) (cv : Int → InVal → Option ℚ) :
    ∀ (ts : List (Int × InVal)),
      (∀ p ∈ ts, convert_to_proper_stattype pf s generator_id stattypeOf
          p.1 p.2 = .ok (cv p.1 p.2)) →
      ∀ (d1 d2 : List (String × Option ℚ)),
      ts.foldlM
          (lp_target_step pf s generator_id variableName stattypeOf) (d1, d2)
        = Except.ok
            (apply_od_updates d1 (value_updates cv variableName ts),
             apply_od_updates d2 (none_updates variableName ts)) := by
  intro ts
  induction ts with
  | nil => intro _ d1 d2; rfl
  | cons p t ih =>
      intro h d1 d2
      have hp := h p (List.mem_cons_self p t)
      have hstep : lp_target_step pf s generator_id variableName stattypeOf
          (d1, d2) p
          = Except.ok (od_set d1 (variableName p.1) (cv p.1 p.2),
                       od_set d2 (variableName p.1) none) := by
        unfold lp_target_step
        rw [hp]
        rfl
      rw [List.foldlM_cons, hstep]
      show t.foldlM
          (lp_target_step pf s generator_id variableName stattypeOf)
          (od_set d1 (variableName p.1) (cv p.1 p.2),
           od_set d2 (variableName p.1) none) = _
      rw [ih (fun w hw => h w (List.mem_cons_of_mem p hw))]
      rfl

/-- The constraint loop of `logpdf_joint` succeeds when every conversion
does, applying the value assignments to both dicts. -/
theorem fold_constraints_ok (pf : String → Option ℚ) (s : LoomStore)
    (generator_id : Int) (variableName : Int → String)
    (stattypeOf : Int → String) (cv : Int → InVal → Option ℚ) :
    ∀ (cs : List (Int × InVal)),
      (∀ p ∈ cs, convert_to_proper_stattype pf s generator_id stattypeOf
          p.1 p.2 = .ok (cv p.1 p.2)) →
      ∀ (d1 d2 : List (String × Option ℚ)),
      cs.foldlM
          (lp_constraint_step pf s generator_id variableName stattypeOf)
          (d1, d2)
        = Except.ok
            (apply_od_updates d1 (value_updates cv variableName cs),
             apply_od_updates d2 (value_updates cv variableName cs)) := by
  intro cs
  induction cs with
  | nil => intro _ d1 d2; rfl
  | cons p t ih =>
      intro h d1 d2
      have hp := h p (List.mem_cons_self p t)
      have hstep : lp_constraint_step pf s generator_id variableName
          stattypeOf (d1, d2) p
          = Except.ok (od_set d1 (variableName p.1) (cv p.1 p.2),
                       od_set d2 (variableName p.1) (cv p.1 p.2)) := by
        unfold lp_constraint_step
        rw [hp]
        rfl
      rw [List.foldlM_cons, hstep]
      show t.foldlM
          (lp_constraint_step pf s generator_id variableName stattypeOf)
          (od_set d1 (variableName p.1) (cv p.1 p.2),
           od_set d2 (variableName p.1) (cv p.1 p.2)) = _
      rw [ih (fun w hw => h w (List.mem_cons_of_mem p hw))]
      rfl

/-- Lookup in the finished `and` dict: the converted constraint value if a
constraint names the label, else the converted target value, else the
initial `None`. -/
theorem and_dict_lookup (cv : Int → InVal → Option ℚ)
    (variableName : Int → String)
    (targets constraints : List (Int × InVal))
    (d0 : List (String × Option ℚ)) (l : String)
    (h0 : d0.lookup l = some none)
    (hndT : (targets.map (fun p => variableName p.1)).Nodup)
    (hndC : (constraints.map (fun p => variableName p.1)).Nodup) :
    (apply_od_updates d0
        (value_updates cv variableName targets
          ++ value_updates cv variableName constraints)).lookup l
      = some (match constraints.find? (fun p => variableName p.1 == l) with
              | some p => cv p.1 p.2
              | none =>
                  match targets.find? (fun p => variableName p.1 == l) with
                  | some p => cv p.1 p.2
                  | none => none) := by
  rw [apply_od_updates_lookup, h0, List.foldl_append,
    fold_value_updates cv variableName targets l (some none) hndT,
    fold_value_updates cv variableName constraints l _ hndC]
  cases hc : constraints.find? (fun p => variableName p.1 == l) with
  | some p => rfl
  | none =>
      cases ht : targets.find? (fun p => variableName p.1 == l) with
      | some p => rfl
      | none => rfl

/-- Lookup in the finished `conditional` dict: the converted constraint
value if a constraint names the label, else `None` (targets only ever store
`None` there). -/
theorem conditional_dict_lookup (cv : Int → InVal → Option ℚ)
    (variableName : Int → String)
    (targets constraints : List (Int × InVal))
    (d0 : List (String × Option ℚ)) (l : String)
    (h0 : d0.lookup l = some none)
    (hndT : (targets.map (fun p => variableName p.1)).Nodup)
    (hndC : (constraints.map (fun p => variableName p.1)).Nodup) :
    (apply_od_updates d0
        (none_updates variableName targets
          ++ value_updates cv variableName constraints)).lookup l
      = some (match constraints.find? (fun p => variableName p.1 == l) with
              | some p => cv p.1 p.2
              | none => none) := by
  rw [apply_od_updates_lookup, h0, List.foldl_append,
    fold_none_updates variableName targets l (some none) hndT]
  have hmid : (match targets.find? (fun p => variableName p.1 == l) with
      | some _ => some (none : Option ℚ)
      | none => some none) = some none := by
    cases ht : targets.find? (fun p => variableName p.1 == l) with
    | some p => rfl
    | none => rfl
  rw [hmid, fold_value_updates cv variableName constraints l (some none) hndC]
  cases hc : constraints.find? (fun p => variableName p.1 == l) with
  | some p => rfl
  | none => rfl

/-- C6: joint log-density builds two full-width value vectors over every
known column in engine rank order — the `and` vector with targets and
constraints filled in (constraints overriding on overlap) and the
`conditional` vector with only the constraints filled in, every other
position unset — scores each with the cached query handle, and returns
exactly the `and` score minus the `conditional` score.  Stated for runs
where every value conversion succeeds (yielding `cv`), every target and
constraint names a known column, and no two targets (or two constraints)
name the same column. -/
theorem logpdf_joint_is_score_difference
    (score : List (Option ℚ) → ℚ) (pf : String → Option ℚ) (s : LoomStore)
    (generator_id : Int) (variableName : Int → String)
    (stattypeOf : Int → String) (cv : Int → InVal → Option ℚ)
    (targets constraints : List (Int × InVal))
    (hcv : ∀ p ∈ targets ++ constraints,
      convert_to_proper_stattype pf s generator_id stattypeOf p.1 p.2
        = .ok (cv p.1 p.2))
    (hmemT : ∀ p ∈ targets,
      variableName p.1 ∈ (get_order s generator_id).map variableName)
    (hmemC : ∀ p ∈ constraints,
      variableName p.1 ∈ (get_order s generator_id).map variableName)
    (hlab : ((get_order s generator_id).map variableName).Nodup)
    (hndT : (targets.map (fun p => variableName p.1)).Nodup)
    (hndC : (constraints.map (fun p => variableName p.1)).Nodup) :
    logpdf_joint score pf s generator_id variableName stattypeOf targets
        constraints
      = .ok (score (and_case_spec cv variableName targets constraints
                ((get_order s generator_id).map variableName))
            - score (conditional_case_spec cv variableName constraints
                ((get_order s generator_id).map variableName))) := by
  have hT : ∀ p ∈ targets,
      convert_to_proper_stattype pf s generator_id stattypeOf p.1 p.2
        = .ok (cv p.1 p.2) :=
    fun p hp => hcv p (List.mem_append_left _ hp)
  have hC : ∀ p ∈ constraints,
      convert_to_proper_stattype pf s generator_id stattypeOf p.1 p.2
        = .ok (cv p.1 p.2) :=
    fun p hp => hcv p (List.mem_append_right _ hp)
  show (do
      let dc1 ← targets.foldlM
        (lp_target_step pf s generator_id variableName stattypeOf)
        (((get_order s generator_id).map variableName).map
            (fun l => (l, (none : Option ℚ))),
         ((get_order s generator_id).map variableName).map
            (fun l => (l, (none : Option ℚ))))
      let dc2 ← constraints.foldlM
        (lp_constraint_step pf s generator_id variableName stattypeOf) dc1
      pure (score (dc2.1.map Prod.snd) - score (dc2.2.map Prod.snd))
      : Except LPError ℚ) = _
  generalize hL : (get_order s generator_id).map variableName = labels
  rw [hL] at hmemT hmemC hlab
  rw [fold_targets_ok pf s generator_id variableName stattypeOf cv targets hT
    (labels.map (fun l => (l, (none : Option ℚ))))
    (labels.map (fun l => (l, (none : Option ℚ))))]
  show (do
      let dc2 ← constraints.foldlM
        (lp_constraint_step pf s generator_id variableName stattypeOf)
        (apply_od_updates (labels.map (fun l => (l, (none : Option ℚ))))
           (value_updates cv variableName targets),
         apply_od_updates (labels.map (fun l => (l, (none : Option ℚ))))
           (none_updates variableName targets))
      pure (score (dc2.1.map Prod.snd) - score (dc2.2.map Prod.snd))
      : Except LPError ℚ) = _
  rw [fold_constraints_ok pf s generator_id variableName stattypeOf cv
    constraints hC
    (apply_od_updates (labels.map (fun l => (l, (none : Option ℚ))))
      (value_updates cv variableName targets))
    (apply_od_updates (labels.map (fun l => (l, (none : Option ℚ))))
      (none_updates variableName targets))]
  show Except.ok
      (score ((apply_od_updates
          (apply_od_updates (labels.map (fun l => (l, (none : Option ℚ))))
            (value_updates cv variableName targets))
          (value_updates cv variableName constraints)).map Prod.snd)
        - score ((apply_od_updates
          (apply_od_updates (labels.map (fun l => (l, (none : Option ℚ))))
            (none_updates variableName targets))
          (value_updates cv variableName constraints)).map Prod.snd)) = _
  rw [apply_od_updates_append, apply_od_updates_append]
  have hkeysA : ∀ u ∈ value_updates cv variableName targets
      ++ value_updates cv variableName constraints,
      u.1 ∈ (labels.map (fun l => (l, (none : Option ℚ)))).map Prod.fst := by
    intro u hu
    rw [init_map_fst]
    rcases List.mem_append.mp hu with h | h
    · obtain ⟨p, hp, hpu⟩ := List.mem_map.mp h
      rw [← hpu]
      exact hmemT p hp
    · obtain ⟨p, hp, hpu⟩ := List.mem_map.mp h
      rw [← hpu]
      exact hmemC p hp
  have hkeysB : ∀ u ∈ none_updates variableName targets
      ++ value_updates cv variableName constraints,
      u.1 ∈ (labels.map (fun l => (l, (none : Option ℚ)))).map Prod.fst := by
    intro u hu
    rw [init_map_fst]
    rcases List.mem_append.mp hu with h | h
    · obtain ⟨p, hp, hpu⟩ := List.mem_map.mp h
      rw [← hpu]
      exact hmemT p hp
    · obtain ⟨p, hp, hpu⟩ := List.mem_map.mp h
      rw [← hpu]
      exact hmemC p hp
  have hA : (apply_od_updates (labels.map (fun l => (l, (none : Option ℚ))))
      (value_updates cv variableName targets
        ++ value_updates cv variableName constraints)).map Prod.snd
      = and_case_spec cv variableName targets constraints labels := by
    have hfstA : (apply_od_updates
        (labels.map (fun l => (l, (none : Option ℚ))))
        (value_updates cv variableName targets
          ++ value_updates cv variableName constraints)).map Prod.fst
        = labels := by
      rw [apply_od_updates_map_fst _ _ hkeysA, init_map_fst]
    exact alist_snd_eq _ labels
      (fun l =>
        match constraints.find? (fun p => variableName p.1 == l) with
        | some p => cv p.1 p.2
        | none =>
            match targets.find? (fun p => variableName p.1 == l) with
            | some p => cv p.1 p.2
            | none => none)
      hfstA hlab
      (fun l hl => and_dict_lookup cv variableName targets constraints _ l
        (init_lookup labels l hl) hndT hndC)
  have hB : (apply_od_updates (labels.map (fun l => (l, (none : Option ℚ))))
      (none_updates variableName targets
        ++ value_updates cv variableName constraints)).map Prod.snd
      = conditional_case_spec cv variableName constraints labels := by
    have hfstB : (apply_od_updates
        (labels.map (fun l => (l, (none : Option ℚ))))
        (none_updates variableName targets
          ++ value_updates cv variableName constraints)).map Prod.fst
        = labels := by
      rw [apply_od_updates_map_fst _ _ hkeysB, init_map_fst]
    exact alist_snd_eq _ labels
      (fun l =>
        match constraints.find? (fun p => variableName p.1 == l) with
        | some p => cv p.1 p.2
        | none => none)
      hfstB hlab
      (fun l hl => conditional_dict_lookup cv variableName targets
        constraints _ l (init_lookup labels l hl) hndT hndC)
  rw [hA, hB]

/-- The C6 theorem evaluated on the two-column witness store: a numerical
target on column `c` and an encoded categorical constraint on column `d`
produce the score difference of the spec vectors, which come out as
`[5, 4]` for the `and` case and `[unset, 4]` for the `conditional` case. -/
theorem logpdf_joint_is_score_difference_witness :
    logpdf_joint c6_score (fun _ => none) c6_store 1 c6_names c6_stattypes
        [(0, InVal.num 5)] [(1, InVal.str "x")]
      = .ok (c6_score (and_case_spec c6_cv c6_names [(0, InVal.num 5)]
                [(1, InVal.str "x")] ((get_order c6_store 1).map c6_names))
            - c6_score (conditional_case_spec c6_cv c6_names
                [(1, InVal.str "x")] ((get_order c6_store 1).map c6_names)))
    ∧ and_case_spec c6_cv c6_names [(0, InVal.num 5)] [(1, InVal.str "x")]
        ((get_order c6_store 1).map c6_names) = [some 5, some 4]
    ∧ conditional_case_spec c6_cv c6_names [(1, InVal.str "x")]
        ((get_order c6_store 1).map c6_names) = [none, some 4] := by
  refine ⟨?_, ?_, ?_⟩
  · exact logpdf_joint_is_score_difference c6_score (fun _ => none) c6_store
      1 c6_names c6_stattypes c6_cv [(0, InVal.num 5)] [(1, InVal.str "x")]
      (by
        intro p hp
        rcases List.mem_append.mp hp with h | h
        · rw [List.mem_singleton.mp h]
          rfl
        · rw [List.mem_singleton.mp h]
          rfl)
      (by decide) (by decide) (by decide) (by decide) (by decide)
  · rfl
  · rfl

end LoomVerification
